import Mathlib

/-!
Verification development for the model-checked-orchestration repository.

The repository snapshot contains two generations of the state engine:
`src/state.rs` (with the five inline history strategies, `Revision(usize)`
and the map-based `StateView`) and the refactored
`src/state/history/*.rs` plus `src/state/resources.rs` (with
`Revision::increment`, `commit_every` and generic `Resources<T>`).
Both are embedded below, each in its own namespace, following the cited
file for each claim.  Rust `BTreeMap`/`BTreeSet` values are embedded as
key-sorted association lists, `Vec` as `List`, machine integers as `Nat`
(all counts in the source are small and non-negative; the one place where
subtraction order matters is modelled explicitly), and panics
(`unwrap`, `todo!`, assertion failures) as `Option`/`Except` failures.
-/

namespace MCO

/-- Association-list model of `BTreeMap`: `insert` replaces the value at an
existing key, otherwise places the binding at its key-sorted position.
`lt` is the key order (strict). -/
def alInsert {κ α : Type} [DecidableEq κ] (lt : κ → κ → Bool) (k : κ) (v : α) :
    List (κ × α) → List (κ × α)
  | [] => [(k, v)]
  | (k', v') :: rest =>
    if k = k' then (k, v) :: rest
    else if lt k k' then (k, v) :: (k', v') :: rest
    else (k', v') :: alInsert lt k v rest

/-- Association-list model of `BTreeMap::get`. -/
def alLookup {κ α : Type} [DecidableEq κ] (k : κ) : List (κ × α) → Option α
  | [] => none
  | (k', v') :: rest => if k = k' then some v' else alLookup k rest

/-- Association-list model of `BTreeMap::remove` (drops the binding). -/
def alRemove {κ α : Type} [DecidableEq κ] (k : κ) (m : List (κ × α)) :
    List (κ × α) :=
  m.filter (fun kv => !(kv.1 = k : Bool))

/-- Update the value stored at `k` (model of `BTreeMap::get_mut` followed by
a write through the reference); a missing key leaves the map unchanged. -/
def alUpdate {κ α : Type} [DecidableEq κ] (k : κ) (f : α → α) :
    List (κ × α) → List (κ × α)
  | [] => []
  | (k', v') :: rest =>
    if k = k' then (k', f v') :: rest else (k', v') :: alUpdate k f rest

/-- Sorted-`List` model of `BTreeSet::insert`. -/
def setInsert {κ : Type} [DecidableEq κ] (lt : κ → κ → Bool) (k : κ) :
    List κ → List κ
  | [] => [k]
  | k' :: rest =>
    if k = k' then k' :: rest
    else if lt k k' then k :: k' :: rest
    else k' :: setInsert lt k rest

/-- Run a history from `h` through the changes `cs`, collecting the revision
returned by each `add_change`; a panicking call (modelled as `none`) stops
the run. -/
def runHist {H C : Type} (stepFn : H → C → Option (H × Nat)) :
    H → List C → List Nat
  | _, [] => []
  | h, c :: cs =>
    match stepFn h c with
    | none => []
    | some (h', r) => r :: runHist stepFn h' cs

/-- If every successful `add_change` returns exactly `maxRev + 1` and leaves
the history with that new maximum, then every run yields strictly
increasing revisions, all above the starting maximum. -/
theorem runHist_chain {H C : Type} (stepFn : H → C → Option (H × Nat))
    (maxRev : H → Nat)
    (hstep : ∀ h c h' r, stepFn h c = some (h', r) →
      r = maxRev h + 1 ∧ maxRev h' = r) :
    ∀ cs h, List.Chain' (· < ·) (runHist stepFn h cs) ∧
      ∀ r ∈ runHist stepFn h cs, maxRev h < r := by
  intro cs
  induction cs with
  | nil => intro h; simp [runHist]
  | cons c cs ih =>
    intro h
    unfold runHist
    cases hc : stepFn h c with
    | none => simp
    | some hr =>
      obtain ⟨h', r⟩ := hr
      obtain ⟨hr1, hr2⟩ := hstep h c h' r hc
      obtain ⟨ihchain, ihgt⟩ := ih h'
      refine ⟨?_, ?_⟩
      · apply List.chain'_cons'.mpr
        refine ⟨?_, ihchain⟩
        intro y hy
        have := ihgt y (by
          have := List.mem_of_mem_head? hy
          exact this)
        omega
      · intro x hx
        rcases List.mem_cons.mp hx with h1 | h2
        · omega
        · have := ihgt x h2
          omega

end MCO

namespace MCO.StateRs

/-!
Embedding of `src/state.rs` (the older generation): `Revision(usize)` is
embedded as `Nat`, `StateView` with its seven fields, `apply_change`, and
the history strategies `StrongHistory`, `BoundedHistory`, `SessionHistory`
and `EventualHistory`.
-/

/-- Node resource as used by `StateView::apply_change` in `src/state.rs`.
The `resources` module is not part of this source tree; the capacity value
is only cloned, never inspected, so it is embedded as `Nat`. -/
structure NodeResource where
  running : List String
  ready : Bool
  capacity : Nat
deriving DecidableEq

/-- Pod resource as used by `StateView::apply_change` in `src/state.rs`.
The `resources` field is only ever `None` there; embedded as `Option Nat`. -/
structure PodResource where
  id : String
  node_name : Option Nat
  resources : Option Nat
deriving DecidableEq

/-- ReplicaSet resource as constructed by `Operation::NewReplicaset`. -/
structure ReplicaSetResource where
  id : String
  replicas : Nat
deriving DecidableEq

/-- Modelled from the spec: the Deployment resource type lives in the
missing `resources` module; `apply_change` never touches deployments, so
only a name is carried. -/
structure DeploymentResource where
  id : String
deriving DecidableEq

/-- Modelled from the spec: the StatefulSet resource type lives in the
missing `resources` module; `apply_change` never touches statefulsets. -/
structure StatefulSetResource where
  id : String
deriving DecidableEq

/-- `Operation` as matched by `StateView::apply_change` in `src/state.rs`. -/
inductive Operation
  | NodeJoin (i : Nat) (capacity : Nat)
  | ControllerJoin (i : Nat)
  | NewPod (name : String)
  | NewReplicaset (name : String)
  | SchedulePod (pod : String) (node : Nat)
  | RunPod (pod : String) (node : Nat)
  | NodeCrash (node : Nat)
deriving DecidableEq

/-- A `Change` is an operation tagged with the revision the controller
observed when generating it. -/
structure Change where
  revision : Nat
  operation : Operation
deriving DecidableEq

/-- `StateView` from `src/state.rs` (lines 403-417): the revision plus the
six resource collections.  The `derivative` attributes mark `revision` as
ignored for `PartialEq` and `Hash`; that is captured by `beqIgnoringRevision`
and `hashedFields` below rather than by the structure itself. -/
structure StateView where
  revision : Nat
  nodes : List (Nat × NodeResource)
  controllers : List Nat
  pods : List (String × PodResource)
  replica_sets : List (String × ReplicaSetResource)
  deployments : List (String × DeploymentResource)
  statefulsets : List (String × StatefulSetResource)
deriving DecidableEq

/-- The derived `PartialEq` of `StateView`: `revision` carries
`#[derivative(PartialEq = "ignore")]`, so only the six resource fields are
compared. -/
def StateView.beqIgnoringRevision (v w : StateView) : Bool :=
  (v.nodes = w.nodes : Bool) && (v.controllers = w.controllers : Bool) &&
  (v.pods = w.pods : Bool) && (v.replica_sets = w.replica_sets : Bool) &&
  (v.deployments = w.deployments : Bool) &&
  (v.statefulsets = w.statefulsets : Bool)

/-- The data fed to the hasher by the derived `Hash` of `StateView`:
`revision` carries `#[derivative(Hash = "ignore")]`, so the hash stream is a
function of the remaining six fields only; two views with equal
`hashedFields` therefore hash identically. -/
def StateView.hashedFields (v : StateView) :
    List (Nat × NodeResource) × List Nat × List (String × PodResource) ×
    List (String × ReplicaSetResource) × List (String × DeploymentResource) ×
    List (String × StatefulSetResource) :=
  (v.nodes, v.controllers, v.pods, v.replica_sets, v.deployments,
   v.statefulsets)

/-- `StateView::apply_change`: applies one operation and bumps the revision
by one.  `RunPod` on an absent node is `nodes.get_mut(node).unwrap()` in the
source, a panic, embedded as `none`. -/
def StateView.apply_change (v : StateView) (change : Change) :
    Option StateView :=
  let after : Option StateView :=
    match change.operation with
    | .NodeJoin i capacity =>
      let node : NodeResource := { running := [], ready := true, capacity := capacity }
      some { v with nodes := MCO.alInsert (· < ·) i node v.nodes }
    | .ControllerJoin i =>
      some { v with controllers := MCO.setInsert (· < ·) i v.controllers }
    | .NewPod i =>
      let pod : PodResource := { id := i, node_name := none, resources := none }
      some { v with pods := MCO.alInsert (fun a b => decide (a < b)) i pod v.pods }
    | .NewReplicaset i =>
      let rs : ReplicaSetResource := { id := i, replicas := 2 }
      some { v with replica_sets := MCO.alInsert (fun a b => decide (a < b)) i rs v.replica_sets }
    | .SchedulePod pod node =>
      let f : PodResource → PodResource := fun p => { p with node_name := some node }
      some { v with pods := MCO.alUpdate pod f v.pods }
    | .RunPod pod node =>
      match MCO.alLookup node v.nodes with
      | none => none
      | some _ =>
        let f : NodeResource → NodeResource := fun n =>
          { n with running := MCO.setInsert (fun a b => decide (a < b)) pod n.running }
        some { v with nodes := MCO.alUpdate node f v.nodes }
    | .NodeCrash node =>
      let keep : String × PodResource → Bool := fun kv =>
        match kv.2.node_name with
        | none => true
        | some n => !(n = node : Bool)
      some { v with nodes := MCO.alRemove node v.nodes, pods := v.pods.filter keep }
  after.map (fun w => { w with revision := v.revision + 1 })

/-- `StrongHistory`: stores exactly one view. -/
structure StrongHistory where
  state : StateView
deriving DecidableEq

/-- `StrongHistory::add_change`: apply unconditionally, return the new
maximum revision. -/
def StrongHistory.add_change (h : StrongHistory) (change : Change) :
    Option (StrongHistory × Nat) :=
  (h.state.apply_change change).map (fun v => (⟨v⟩, v.revision))

def StrongHistory.max_revision (h : StrongHistory) : Nat :=
  h.state.revision

/-- `StrongHistory::state_at` asserts the requested revision is the stored
one (panic on mismatch, embedded as `none`). -/
def StrongHistory.state_at (h : StrongHistory) (revision : Nat) :
    Option StateView :=
  if revision = h.state.revision then some h.state else none

def StrongHistory.valid_revisions (h : StrongHistory) (_sid : Nat) :
    List Nat :=
  [h.state.revision]

/-- `BoundedHistory`: the most recent `k+1` views. -/
structure BoundedHistory where
  k : Nat
  last_k_states : List StateView
deriving DecidableEq

/-- `BoundedHistory::add_change`: clone the newest view, apply, evict the
oldest when over capacity, push.  `last().unwrap()` on an empty list is a
panic, embedded as `none`. -/
def BoundedHistory.add_change (h : BoundedHistory) (change : Change) :
    Option (BoundedHistory × Nat) :=
  match h.last_k_states.getLast? with
  | none => none
  | some lastState =>
    (lastState.apply_change change).map (fun st =>
      let kept := if h.last_k_states.length > h.k
        then h.last_k_states.drop 1 else h.last_k_states
      (⟨h.k, kept ++ [st]⟩, st.revision))

def BoundedHistory.max_revision (h : BoundedHistory) : Nat :=
  ((h.last_k_states.getLast?).map (fun s => s.revision)).getD 0

/-- `BoundedHistory::state_at`: `binary_search_by_key` over the
revision-sorted list, embedded as a find by revision. -/
def BoundedHistory.state_at (h : BoundedHistory) (revision : Nat) :
    Option StateView :=
  h.last_k_states.find? (fun s => s.revision = revision)

def BoundedHistory.valid_revisions (h : BoundedHistory) (_sid : Nat) :
    List Nat :=
  h.last_k_states.map (fun s => s.revision)

/-- `SessionHistory`: retained views plus per-session high-water marks
(`BTreeMap<usize, Revision>` embedded as a key-sorted association list). -/
structure SessionHistory where
  sessions : List (Nat × Nat)
  states : List StateView
deriving DecidableEq

/-- `SessionHistory::add_change` (src/state.rs lines 143-161): append the
mutated view, record the caller's high-water as the new maximum, then drop
leading views older than every session's high-water.  The source's loop
pops from the front while `first().unwrap().revision < min`; it never
empties the list because the final view's revision equals the new maximum,
which is `≥ min`, so the loop is embedded as `dropWhile`. -/
def SessionHistory.add_change (h : SessionHistory) (change : Change)
    (sid : Nat) : Option (SessionHistory × Nat) :=
  match h.states.getLast? with
  | none => none
  | some lastState =>
    (lastState.apply_change change).map (fun st =>
      let states1 := h.states ++ [st]
      let maxRev := st.revision
      let sessions' := MCO.alInsert (· < ·) sid maxRev h.sessions
      let min_revision := ((sessions'.map (fun kv => kv.2)).min?).getD 0
      let states2 := states1.dropWhile (fun s => s.revision < min_revision)
      (⟨sessions', states2⟩, maxRev))

def SessionHistory.max_revision (h : SessionHistory) : Nat :=
  ((h.states.getLast?).map (fun s => s.revision)).getD 0

/-- `SessionHistory::state_at`: `binary_search_by_key` over the
revision-sorted list, embedded as a find by revision. -/
def SessionHistory.state_at (h : SessionHistory) (revision : Nat) :
    Option StateView :=
  h.states.find? (fun s => s.revision = revision)

/-- `SessionHistory::valid_revisions` (src/state.rs lines 175-182): every
retained view whose revision is at least the session's high-water, the
high-water defaulting to `Revision::default()` (zero) for an unknown
session. -/
def SessionHistory.valid_revisions (h : SessionHistory) (sid : Nat) :
    List Nat :=
  let min_revision := (MCO.alLookup sid h.sessions).getD 0
  (h.states.filter (fun s => s.revision ≥ min_revision)).map
    (fun s => s.revision)

/-- `EventualHistory`: every view ever produced. -/
structure EventualHistory where
  states : List StateView
deriving DecidableEq

def EventualHistory.add_change (h : EventualHistory) (change : Change) :
    Option (EventualHistory × Nat) :=
  match h.states.getLast? with
  | none => none
  | some lastState =>
    (lastState.apply_change change).map (fun st =>
      (⟨h.states ++ [st]⟩, st.revision))

def EventualHistory.max_revision (h : EventualHistory) : Nat :=
  ((h.states.getLast?).map (fun s => s.revision)).getD 0

/-- `EventualHistory::state_at` (src/state.rs lines 210-216): indexes the
list directly with the revision (`&self.states[revision.0]`); out of bounds
is a panic, embedded as `none`. -/
def EventualHistory.state_at (h : EventualHistory) (revision : Nat) :
    Option StateView :=
  h.states.get? revision

def EventualHistory.valid_revisions (h : EventualHistory) (_sid : Nat) :
    List Nat :=
  h.states.map (fun s => s.revision)

/-- Apply a sequence of `add_change` calls; a panicking call stops the
run. -/
def EventualHistory.runFrom : EventualHistory → List Change → EventualHistory
  | h, [] => h
  | h, c :: cs =>
    match h.add_change c with
    | none => h
    | some (h', _) => EventualHistory.runFrom h' cs

/-- `EventualHistory::new` followed by a sequence of `add_change` calls. -/
def EventualHistory.run (initial_state : StateView) (cs : List Change) :
    EventualHistory :=
  EventualHistory.runFrom ⟨[initial_state]⟩ cs

end MCO.StateRs

namespace MCO.HistNew

/-!
Embedding of the refactored history layer (`src/state/history/optimistic.rs`
and `src/state/history/linearizable.rs`).  `src/state/revision.rs` and
`src/state/mod.rs` are not part of this source tree.
-/

/-- Modelled from the spec: `Revision` (state/revision.rs is missing) is a
totally ordered monotonic token with `increment`; embedded as `Nat` with
`increment` adding one. -/
def Revision : Type := Nat

/-- A generic operation type: the optimistic history only forwards the
operation to `StateView::apply_operation`, so its shape is irrelevant. -/
structure Change (ω : Type) where
  revision : Nat
  operation : ω
deriving DecidableEq

/-- `StateView` of the refactored layer: revision plus resource data.  The
resource collections (state/mod.rs is missing) are abstracted as `σ`. -/
structure StateView (σ : Type) where
  revision : Nat
  data : σ
deriving DecidableEq

/-- Modelled from the spec: `StateView::apply_operation` (state/mod.rs is
missing) applies the operation to the resource collections and stamps the
view with the supplied revision; the resource effect is the function
`applyData`. -/
def StateView.apply_operation {σ ω : Type} (applyData : ω → σ → σ)
    (v : StateView σ) (op : ω) (new_revision : Nat) : StateView σ :=
  { revision := new_revision, data := applyData op v.data }

/-- `binary_search_by_key(&&change.revision, |s| &s.revision)` over the
revision-sorted state list: the index of the view carrying the wanted
revision (`none` models the `unwrap` panic when absent). -/
def findRevIdx {σ : Type} (r : Nat) : List (StateView σ) → Option Nat
  | [] => none
  | v :: rest =>
    if v.revision = r then some 0 else (findRevIdx r rest).map (· + 1)

/-- `OptimisticLinearHistory` (src/state/history/optimistic.rs): the first
element is the last committed view, the last the optimistic head. -/
structure OptimisticLinearHistory (σ : Type) where
  states : List (StateView σ)
  commit_every : Nat
deriving DecidableEq

/-- `self.states.last().unwrap().revision`; the state list is non-empty in
every reachable history (one view at construction, at least one after each
`add_change`), so the default is never consulted there. -/
def OptimisticLinearHistory.max_revision {σ : Type}
    (h : OptimisticLinearHistory σ) : Nat :=
  ((h.states.getLast?).map (fun s => s.revision)).getD 0

/-- `OptimisticLinearHistory::add_change` (src/state/history/optimistic.rs
lines 29-60): locate the view at `change.revision` (panic when absent,
embedded as `none`), mutate a copy of it at revision `max + 1`; a mutation
of the tail extends the chain, collapsing to just the new tail once the
chain length exceeds `commit_every`; a mutation of an earlier view keeps
only that view followed by the new one.  Returns the new history and the
revision reported by `self.max_revision()`. -/
def OptimisticLinearHistory.add_change {σ ω : Type}
    (applyData : ω → σ → σ) (h : OptimisticLinearHistory σ)
    (change : Change ω) : Option (OptimisticLinearHistory σ × Nat) :=
  match findRevIdx change.revision h.states with
  | none => none
  | some index =>
    match h.states.get? index with
    | none => none
    | some base =>
      let new_revision := h.max_revision + 1
      let new_state := base.apply_operation applyData change.operation new_revision
      let h' : OptimisticLinearHistory σ :=
        if index + 1 = h.states.length then
          if h.states.length > h.commit_every then
            ⟨[new_state], h.commit_every⟩
          else
            ⟨h.states ++ [new_state], h.commit_every⟩
        else
          ⟨[base, new_state], h.commit_every⟩
      some (h', h'.max_revision)

/-- `OptimisticLinearHistory::state_at`: `binary_search_by_key` over the
revision-sorted list, embedded as a find by revision (panic on a missing
revision, embedded as `none`). -/
def OptimisticLinearHistory.state_at {σ : Type}
    (h : OptimisticLinearHistory σ) (revision : Nat) :
    Option (StateView σ) :=
  h.states.find? (fun s => s.revision = revision)

def OptimisticLinearHistory.valid_revisions {σ : Type}
    (h : OptimisticLinearHistory σ) (_sid : Nat) : List Nat :=
  h.states.map (fun s => s.revision)

end MCO.HistNew

namespace MCO.Res

/-!
Embedding of `src/state/resources.rs`: the generic sorted resource
collection with uid / resource-version concurrency control.  The `Meta` and
`Spec` traits come from the missing `resources` module; the metadata block
is modelled from the spec (section 3) and the generic resource carries an
abstract `spec` body.
-/

/-- Modelled from the spec: an owner reference carries the owning
controller's uid (plus fields `insert` never touches). -/
structure OwnerReference where
  uid : String
deriving DecidableEq

/-- Modelled from the spec: the metadata block of every resource
(section 3); `Resources::insert` touches `name`, `uid`, `resource_version`
and `generation`, the job controller additionally reads `labels`,
`annotations`, `finalizers`, `owner_references`, the timestamps, the
namespace (field `namespace_`: `namespace` is a Lean keyword) and
`generate_name`.  Times are the injected logical clock, embedded as
`Nat`. -/
structure Metadata where
  name : String
  namespace_ : String
  generate_name : String
  uid : String
  resource_version : String
  generation : Nat
  labels : List (String × String)
  annotations : List (String × String)
  finalizers : List String
  owner_references : List OwnerReference
  deletion_timestamp : Option Nat
  creation_timestamp : Option Nat
deriving DecidableEq

/-- A resource for the purposes of `Resources<T>`: the `Meta` trait exposes
the metadata block and the `Spec` trait the spec body, whose type is the
parameter `σ`. -/
structure Resource (σ : Type) where
  metadata : Metadata
  spec : σ
deriving DecidableEq

/-- `Resources<T>` is a name-sorted vector; embedded as a list kept sorted
by `insert`. -/
abbrev Resources (σ : Type) : Type := List (Resource σ)

/-- `Resources::get` / the `get_mut` lookup: `binary_search_by_key` on the
name over the name-sorted list, embedded as a find by name. -/
def Resources.get {σ : Type} (rs : Resources σ) (name : String) :
    Option (Resource σ) :=
  List.find? (fun t => t.metadata.name = name) rs

/-- The index found by `get_pos` for an existing name
(`binary_search_by_key` over the name-sorted list, embedded as the index
of the matching entry). -/
def Resources.getPos {σ : Type} : Resources σ → String → Option Nat
  | [], _ => none
  | t :: rest, name =>
    if t.metadata.name = name then some 0
    else (Resources.getPos rest name).map (· + 1)

/-- `get_insertion_pos`: the sorted position for a fresh name, embedded as
the number of entries whose name precedes it. -/
def Resources.get_insertion_pos {σ : Type} (rs : Resources σ)
    (k : String) : Nat :=
  (List.takeWhile (fun t => decide (t.metadata.name < k)) rs).length

/-- `Resources::insert` (src/state/resources.rs lines 31-64).  Returns the
`Result` paired with the collection after the call (the source mutates
`&mut self`); both `Err` branches leave the collection untouched. -/
def Resources.insert {σ : Type} [DecidableEq σ] (rs : Resources σ)
    (res : Resource σ) (revision : Nat) : Except Unit Unit × Resources σ :=
  match Resources.getPos rs res.metadata.name with
  | some pos =>
    match List.get? rs pos with
    | none => (Except.error (), rs)
    | some existing =>
      if existing.metadata.uid ≠ res.metadata.uid then
        (Except.error (), rs)
      else if res.metadata.resource_version ≠ "" ∧
          existing.metadata.resource_version ≠ res.metadata.resource_version then
        (Except.error (), rs)
      else
        let res1 : Resource σ :=
          { res with metadata :=
            { res.metadata with resource_version := toString revision } }
        let res2 : Resource σ :=
          if res1.spec ≠ existing.spec then
            { res1 with metadata :=
              { res1.metadata with generation := res1.metadata.generation + 1 } }
          else res1
        (Except.ok (), List.set rs pos res2)
  | none =>
    let res1 : Resource σ :=
      { res with metadata :=
        { res.metadata with resource_version := toString revision } }
    let pos := Resources.get_insertion_pos rs res1.metadata.name
    (Except.ok (), List.take pos rs ++ res1 :: List.drop pos rs)

end MCO.Res

namespace MCO.JobCtl

/-!
Embedding of `src/controller/job.rs`.  The `resources`, `utils` and
`controller/util` modules are not part of this source tree; the resource
types below and the `util` helpers are modelled from the spec where so
marked.  The source's `utils::now()` (spec section 9: an injected logical
clock) is threaded as an explicit `now : Nat` argument.  Rust panics
(`todo!()` and `Option::unwrap` on `None`) are embedded as
`Except.error` with a describing message.
-/

open MCO.Res (Metadata OwnerReference)

/-- Modelled from the spec: pod lifecycle phases.  The numeric
discriminants (used by ordering rule 2 of section 4.7.1,
`Pending < Unknown < Running`) are given by `PodPhase.disc`. -/
inductive PodPhase
  | Pending
  | Unknown
  | Running
  | Succeeded
  | Failed
deriving DecidableEq

/-- The `as u8` discriminant of a phase, ordered as in the spec's rule
`Pending < Unknown < Running` (section 4.7.1). -/
def PodPhase.disc : PodPhase → Nat
  | .Pending => 0
  | .Unknown => 1
  | .Running => 2
  | .Succeeded => 3
  | .Failed => 4

/-- Modelled from the spec: a condition status. -/
inductive ConditionStatus
  | True
  | False
  | Unknown
deriving DecidableEq

/-- Modelled from the spec: pod condition types; the job controller only
inspects `Ready` and compares types for equality. -/
inductive PodConditionType
  | Ready
  | ContainersReady
  | PodScheduled
  | DisruptionTarget
deriving DecidableEq

def PodConditionType.str : PodConditionType → String
  | .Ready => "Ready"
  | .ContainersReady => "ContainersReady"
  | .PodScheduled => "PodScheduled"
  | .DisruptionTarget => "DisruptionTarget"

/-- Modelled from the spec: a pod condition. -/
structure PodCondition where
  type : PodConditionType
  status : ConditionStatus
  last_transition_time : Option Nat
deriving DecidableEq

/-- Modelled from the spec: a terminated-container state with its exit
code. -/
structure ContainerStateTerminated where
  exit_code : Nat
deriving DecidableEq

/-- Modelled from the spec: a container state; the controller only asks
whether it is terminated and with which exit code. -/
structure ContainerState where
  terminated : Option ContainerStateTerminated
deriving DecidableEq

/-- Modelled from the spec: a container status with restart count. -/
structure ContainerStatus where
  name : String
  state : ContainerState
  restart_count : Nat
deriving DecidableEq

/-- Modelled from the spec: an object field selector for env-var
injection. -/
structure ObjectFieldSelector where
  field_path : String
  api_version : Option String
deriving DecidableEq

/-- Modelled from the spec: the source of an env-var value. -/
structure EnvVarSource where
  field_ref : Option ObjectFieldSelector
deriving DecidableEq

/-- Modelled from the spec: a container env-var. -/
structure EnvVar where
  name : String
  value : Option String
  value_from : Option EnvVarSource
deriving DecidableEq

/-- Modelled from the spec: a container; the controller only touches its
env list. -/
structure Container where
  name : String
  env : List EnvVar
deriving DecidableEq

/-- Modelled from the spec: pod restart policies. -/
inductive PodRestartPolicy
  | Always
  | OnFailure
  | Never
deriving DecidableEq

/-- Modelled from the spec: the pod spec fields the job controller reads or
writes. -/
structure PodSpec where
  node_name : Option String
  hostname : String
  restart_policy : Option PodRestartPolicy
  containers : List Container
  init_containers : List Container
deriving DecidableEq

/-- Modelled from the spec: the pod status fields the job controller
reads. -/
structure PodStatus where
  phase : PodPhase
  conditions : List PodCondition
  container_statuses : List ContainerStatus
  init_container_statuses : List ContainerStatus
deriving DecidableEq

/-- Modelled from the spec: a pod. -/
structure Pod where
  metadata : Metadata
  spec : PodSpec
  status : PodStatus
deriving DecidableEq

/-- Modelled from the spec: a pod template (metadata plus pod spec). -/
structure PodTemplateSpec where
  metadata : Metadata
  spec : PodSpec
deriving DecidableEq

/-- Modelled from the spec: a label selector with its `matches` check
(every selector label must be present with the same value). -/
structure LabelSelector where
  match_labels : List (String × String)
deriving DecidableEq

def LabelSelector.matches (s : LabelSelector)
    (labels : List (String × String)) : Bool :=
  s.match_labels.all (fun kv => MCO.alLookup kv.1 labels = some kv.2)

/-- Job completion modes. -/
inductive JobCompletionMode
  | NonIndexed
  | Indexed
deriving DecidableEq

/-- Job condition types as used by the controller. -/
inductive JobConditionType
  | Complete
  | Failed
  | FailureTarget
  | Suspended
deriving DecidableEq

/-- Modelled from the spec: a job condition. -/
structure JobCondition where
  status : ConditionStatus
  type : JobConditionType
  last_probe_time : Option Nat
  last_transition_time : Option Nat
  message : String
  reason : String
deriving DecidableEq

/-- Modelled from the spec: uids of terminated pods not yet folded into the
numeric counters. -/
structure UncountedTerminatedPods where
  succeeded : List String
  failed : List String
deriving DecidableEq

/-- Pod-failure-policy rule actions. -/
inductive JobPodFailurePolicyRuleAction
  | Ignore
  | FailIndex
  | Count
  | FailJob
deriving DecidableEq

/-- Exit-code requirement operators. -/
inductive JobPodFailurePolicyRuleOnExitCodesRequirementOperator
  | In
  | NotIn
deriving DecidableEq

/-- Modelled from the spec: an exit-code requirement of a failure-policy
rule. -/
structure JobPodFailurePolicyRuleOnExitCodesRequirement where
  container_name : Option String
  operator : JobPodFailurePolicyRuleOnExitCodesRequirementOperator
  values : List Nat
deriving DecidableEq

/-- Modelled from the spec: a pod-condition pattern of a failure-policy
rule. -/
structure JobPodFailurePolicyRuleOnPodConditionsPattern where
  type : PodConditionType
  status : ConditionStatus
deriving DecidableEq

/-- Modelled from the spec: one failure-policy rule. -/
structure JobPodFailurePolicyRule where
  action : JobPodFailurePolicyRuleAction
  on_exit_codes : Option JobPodFailurePolicyRuleOnExitCodesRequirement
  on_pod_conditions : Option (List JobPodFailurePolicyRuleOnPodConditionsPattern)
deriving DecidableEq

/-- Modelled from the spec: a pod failure policy. -/
structure JobPodFailurePolicy where
  rules : List JobPodFailurePolicyRule
deriving DecidableEq

/-- Modelled from the spec: the job spec fields the controller reads. -/
structure JobSpec where
  selector : LabelSelector
  suspend : Bool
  parallelism : Option Nat
  completions : Option Nat
  backoff_limit : Option Nat
  active_deadline_seconds : Option Nat
  completion_mode : JobCompletionMode
  pod_failure_policy : Option JobPodFailurePolicy
  template : PodTemplateSpec
deriving DecidableEq

/-- Modelled from the spec: the job status fields the controller reads. -/
structure JobStatus where
  active : Nat
  ready : Nat
  succeeded : Option Nat
  failed : Option Nat
  start_time : Option Nat
  completed_indexes : String
  conditions : List JobCondition
  uncounted_terminated_pods : UncountedTerminatedPods
deriving DecidableEq

/-- Modelled from the spec: a job. -/
structure Job where
  metadata : Metadata
  spec : JobSpec
  status : JobStatus
deriving DecidableEq

/-- `JobControllerAction` from src/controller/job.rs. -/
inductive JobControllerAction
  | ControllerJoin (id : Nat)
  | UpdateJobStatus (j : Job)
  | CreatePod (pod : Pod)
  | UpdatePod (pod : Pod)
  | DeletePod (pod : Pod)
deriving DecidableEq

def JOB_COMPLETION_INDEX_ANNOTATION_KEY : String :=
  "batch.kubernetes.io/job-completion-index"

def JOB_TRACKING_FINALIZER : String := "batch.kubernetes.io/job-tracking"

def JOB_REASON_POD_FAILURE_POLICY : String := "PodFailurePolicy"

def JOB_REASON_BACKOFF_LIMIT_EXCEEDED : String := "BackoffLimitExceeded"

def JOB_REASON_DEADLINE_EXCEEDED : String := "DeadlineExceeded"

def JOB_COMPLETION_INDEX_ENV_NAME : String := "JOB_COMPLETION_INDEX"

def MAX_POD_CREATE_DELETE_PER_SYNC : Nat := 500

/-- Modelled from the spec: `util::is_pod_active` — a pod that is neither
terminal nor terminating. -/
def is_pod_active (p : Pod) : Bool :=
  !(p.status.phase = PodPhase.Succeeded : Bool) &&
  !(p.status.phase = PodPhase.Failed : Bool) &&
  p.metadata.deletion_timestamp.isNone

/-- Modelled from the spec: `util::filter_active_pods`. -/
def filter_active_pods (pods : List Pod) : List Pod :=
  pods.filter is_pod_active

/-- Modelled from the spec: `util::is_pod_terminating` — a soft-deleted
pod. -/
def is_pod_terminating (p : Pod) : Bool :=
  p.metadata.deletion_timestamp.isSome

/-- Modelled from the spec: `util::filter_terminating_pods`. -/
def filter_terminating_pods (pods : List Pod) : List Pod :=
  pods.filter is_pod_terminating

/-- Modelled from the spec: `util::is_pod_ready` — the pod carries a
`Ready` condition with status `True`. -/
def is_pod_ready (p : Pod) : Bool :=
  p.status.conditions.any (fun c =>
    (c.type = PodConditionType.Ready : Bool) &&
    (c.status = ConditionStatus.True : Bool))

/-- Modelled from the spec: `util::new_controller_ref` — an owner reference
to the controller identified by the metadata's uid. -/
def new_controller_ref (meta : Metadata) : OwnerReference :=
  { uid := meta.uid }

/-- Modelled from the spec: `util::get_pod_from_template` — a fresh pod
built from the template, owned by the controller, named by generate-name
from the owner. -/
def get_pod_from_template (meta : Metadata) (template : PodTemplateSpec) :
    Pod :=
  { metadata :=
      { template.metadata with
        generate_name := meta.name ++ "-",
        namespace_ := meta.namespace_,
        owner_references := [new_controller_ref meta] },
    spec := template.spec,
    status :=
      { phase := PodPhase.Pending, conditions := [],
        container_statuses := [], init_container_statuses := [] } }

end MCO.JobCtl

namespace MCO.JobCtl

def has_job_tracking_finalizer (pod : Pod) : Bool :=
  pod.metadata.finalizers.any (fun f => f = JOB_TRACKING_FINALIZER)

/-- `get_completion_index`: the completion-index annotation parsed as a
number (`parse().ok()`). -/
def get_completion_index (anns : List (String × String)) : Option Nat :=
  (MCO.alLookup JOB_COMPLETION_INDEX_ANNOTATION_KEY anns).bind
    (fun v => v.toNat?)

def only_replace_failed_pods (job : Job) : Bool :=
  job.spec.pod_failure_policy.isSome

def is_pod_failed (pod : Pod) (job : Job) : Bool :=
  if job.spec.pod_failure_policy.isSome then
    pod.status.phase = PodPhase.Failed
  else if pod.status.phase = PodPhase.Failed then
    true
  else if only_replace_failed_pods job then
    pod.status.phase = PodPhase.Failed
  else
    pod.metadata.deletion_timestamp.isSome &&
    !(pod.status.phase = PodPhase.Succeeded : Bool)

def get_valid_pods_with_filter (job : Job) (pods : List Pod)
    (uncounted_uids : List String) (expected_rm_finalizers : List String)
    (f : Pod → Bool) : List Pod :=
  pods.filter (fun p =>
    if !has_job_tracking_finalizer p ||
        uncounted_uids.contains p.metadata.uid ||
        expected_rm_finalizers.contains p.metadata.uid then
      false
    else if (job.spec.completion_mode = JobCompletionMode.Indexed : Bool) &&
        (match get_completion_index p.metadata.annotations with
         | none => true
         | some i => i ≥ job.spec.completions.getD 0) then
      false
    else
      f p)

/-- `get_new_finished_pods`: newly succeeded and newly failed pods not yet
accounted in the job status. -/
def get_new_finished_pods (job : Job) (pods : List Pod)
    (uncounted : UncountedTerminatedPods)
    (expected_rm_finalizers : List String) : List Pod × List Pod :=
  let succeeded_pods := get_valid_pods_with_filter job pods
    uncounted.succeeded expected_rm_finalizers
    (fun p => p.status.phase = PodPhase.Succeeded)
  let failed_pods := get_valid_pods_with_filter job pods
    uncounted.failed expected_rm_finalizers
    (fun p => is_pod_failed p job)
  (succeeded_pods, failed_pods)

def is_on_exit_codes_operator_matching (exit_code : Nat)
    (requirement : JobPodFailurePolicyRuleOnExitCodesRequirement) : Bool :=
  match requirement.operator with
  | .In => requirement.values.any (fun v => v = exit_code)
  | .NotIn => requirement.values.all (fun v => !(v = exit_code : Bool))

def get_matching_container_from_list (css : List ContainerStatus)
    (requirement : JobPodFailurePolicyRuleOnExitCodesRequirement) :
    Option ContainerStatus :=
  css.find? (fun cs =>
    match cs.state.terminated with
    | none => false
    | some t =>
      (match requirement.container_name with
       | none => true
       | some cn => cn = cs.name) &&
      !(t.exit_code = 0 : Bool) &&
      is_on_exit_codes_operator_matching t.exit_code requirement)

def match_on_exit_codes (pod_status : PodStatus)
    (requirement : JobPodFailurePolicyRuleOnExitCodesRequirement) :
    Option ContainerStatus :=
  match get_matching_container_from_list pod_status.container_statuses
      requirement with
  | some cs => some cs
  | none =>
    get_matching_container_from_list pod_status.init_container_statuses
      requirement

def match_on_pod_conditions (pod_status : PodStatus)
    (requirement : List JobPodFailurePolicyRuleOnPodConditionsPattern) :
    Option PodCondition :=
  pod_status.conditions.find? (fun pc =>
    requirement.any (fun pattern =>
      (pc.type = pattern.type : Bool) && (pc.status = pattern.status : Bool)))

/-- The exit code reported in a `FailJob` message; guarded by
`get_matching_container_from_list`, which only returns terminated
containers, so the default is never consulted. -/
def terminatedExitCode (cs : ContainerStatus) : Nat :=
  match cs.state.terminated with
  | some t => t.exit_code
  | none => 0

/-- The loop of `match_pod_failure_policy` over the rules, with the running
rule index (the `FailIndex` arm does nothing and falls through to the next
rule). -/
def match_pod_failure_policy_go (pod : Pod) :
    List JobPodFailurePolicyRule → Nat →
    Option String × Bool × Option JobPodFailurePolicyRuleAction
  | [], _ => (none, true, none)
  | rule :: rest, index =>
    match rule.on_exit_codes with
    | some on_exit_codes =>
      (match match_on_exit_codes pod.status on_exit_codes with
       | some container_status =>
         (match rule.action with
          | .Ignore => (none, false, some rule.action)
          | .FailIndex => match_pod_failure_policy_go pod rest (index + 1)
          | .Count => (none, true, some rule.action)
          | .FailJob =>
            let msg := "Container " ++ container_status.name ++ " for pod " ++
              pod.metadata.namespace_ ++ "/" ++ pod.metadata.name ++
              " failed with exit code " ++
              toString (terminatedExitCode container_status) ++
              " matching FailJob rulel at index " ++ toString index
            (some msg, true, some rule.action))
       | none => match_pod_failure_policy_go pod rest (index + 1))
    | none =>
      match rule.on_pod_conditions with
      | some on_pod_conditions =>
        (match match_on_pod_conditions pod.status on_pod_conditions with
         | some pod_condition =>
           (match rule.action with
            | .Ignore => (none, false, some rule.action)
            | .FailIndex => match_pod_failure_policy_go pod rest (index + 1)
            | .Count => (none, true, some rule.action)
            | .FailJob =>
              let msg := "Pod " ++ pod.metadata.namespace_ ++ "/" ++
                pod.metadata.name ++ " has condition " ++
                pod_condition.type.str ++
                " matching FailJob rule at index " ++ toString index
              (some msg, true, some rule.action))
         | none => match_pod_failure_policy_go pod rest (index + 1))
      | none => match_pod_failure_policy_go pod rest (index + 1)

/-- `match_pod_failure_policy`: the failure message (for `FailJob`),
whether the failure counts towards the backoff limit, and the matched
action. -/
def match_pod_failure_policy (pfp : JobPodFailurePolicy) (pod : Pod) :
    Option String × Bool × Option JobPodFailurePolicyRuleAction :=
  match_pod_failure_policy_go pod pfp.rules 0

/-- `non_ignored_failed_pods_count`: failed pods minus those matched by an
`Ignore` rule. -/
def non_ignored_failed_pods_count (job : Job) (failed_pods : List Pod) :
    Nat :=
  match job.spec.pod_failure_policy with
  | none => failed_pods.length
  | some pfp =>
    failed_pods.length -
      (failed_pods.filter (fun p =>
        !(match_pod_failure_policy pfp p).2.1)).length

def count_ready_pods (pods : List Pod) : Nat :=
  (pods.filter (fun p => is_pod_ready p)).length

def find_condition_by_type (conditions : List JobCondition)
    (cond_type : JobConditionType) : Option JobCondition :=
  conditions.find? (fun c => c.type = cond_type)

def new_condition (condition_type : JobConditionType)
    (status : ConditionStatus) (reason : String) (message : String)
    (now : Nat) : JobCondition :=
  { status := status, type := condition_type, last_probe_time := some now,
    last_transition_time := some now, message := message, reason := reason }

def get_fail_job_message (job : Job) (pods : List Pod) : Option String :=
  pods.findSome? (fun p =>
    if is_pod_failed p job then
      match job.spec.pod_failure_policy with
      | some pfp => (match_pod_failure_policy pfp p).1
      | none => none
    else none)

/-- `past_backoff_limit_on_failure`: restart-count check for
`restartPolicy = OnFailure`; `job.spec.backoff_limit.unwrap()` panics when
the limit is absent (embedded as an error). -/
def past_backoff_limit_on_failure (job : Job) (pods : List Pod) :
    Except String Bool :=
  if (match job.spec.template.spec.restart_policy with
      | none => true
      | some rp => !(rp = PodRestartPolicy.OnFailure : Bool)) then
    Except.ok false
  else
    let result := pods.foldl (fun acc pod =>
      if (pod.status.phase = PodPhase.Running : Bool) ||
          (pod.status.phase = PodPhase.Pending : Bool) then
        acc +
          (pod.status.init_container_statuses.map
            (fun stat => stat.restart_count)).sum +
          (pod.status.container_statuses.map
            (fun stat => stat.restart_count)).sum
      else acc) 0
    if (match job.spec.backoff_limit with
        | none => false
        | some bl => bl = 0) then
      Except.ok (result > 0)
    else
      match job.spec.backoff_limit with
      | none => Except.error "unwrap on backoff limit none"
      | some bl => Except.ok (result ≥ bl)

/-- `past_active_deadline` (src/controller/job.rs lines 583-594).  The
source computes `job.status.start_time.unwrap().0 - now().0` — the start
time MINUS the current time — and compares that with the allowed duration.
`Instant` subtraction saturates at zero, embedded as `Nat` truncated
subtraction. -/
def past_active_deadline (job : Job) (now : Nat) : Bool :=
  if job.spec.active_deadline_seconds.isNone ||
      job.status.start_time.isNone || job.spec.suspend then
    false
  else
    let duration := job.status.start_time.getD 0 - now
    let allowed_duration := job.spec.active_deadline_seconds.getD 0
    duration ≥ allowed_duration

end MCO.JobCtl

namespace MCO.JobCtl

/-- The loop body of `parse_indexes_from_string`, with the accumulated
result and the `last_interval` tracker.  A failed `parse().unwrap()` is a
panic, embedded as an error; a first bound at or past `completions` breaks
out of the loop.  When `last_interval` ends right before `first` the
source's `li.1 = last; continue` writes through the by-value binding
`mut li` (the `mut` resets the match-ergonomics binding mode, so `li` is a
copy): neither `result` nor `last_interval` changes and the interval is
skipped.  The u32 test `li.1 == first - 1` is embedded wrap-safe as
`li.2 + 1 = first` (equivalent for in-range values, and false for
`first = 0` just as the release-mode wrap makes it). -/
def parse_indexes_go (completions : Nat) :
    List String → List (Nat × Nat) → Option (Nat × Nat) →
    Except String (List (Nat × Nat))
  | [], result, _ => Except.ok result
  | interval_str :: rest, result, last_interval =>
    let limits_str := interval_str.splitOn "-"
    match (limits_str.headD "").toNat? with
    | none => Except.error "unwrap on completed indexes parse"
    | some first =>
      if first ≥ completions then Except.ok result
      else
        let lastE : Except String Nat :=
          match limits_str.get? 1 with
          | some last_s =>
            match last_s.toNat? with
            | none => Except.error "unwrap on completed indexes parse"
            | some l => Except.ok (if l ≥ completions then completions - 1 else l)
          | none => Except.ok first
        match lastE with
        | Except.error e => Except.error e
        | Except.ok last =>
          match last_interval with
          | some li =>
            if li.2 + 1 = first then
              parse_indexes_go completions rest result last_interval
            else
              parse_indexes_go completions rest (result ++ [(first, last)])
                (some (first, last))
          | none =>
            parse_indexes_go completions rest (result ++ [(first, last)])
              (some (first, last))

def parse_indexes_from_string (indexes_str : String) (completions : Nat) :
    Except String (List (Nat × Nat)) :=
  if indexes_str = "" then Except.ok []
  else parse_indexes_go completions (indexes_str.splitOn ",") [] none

/-- The closure `append_or_merge_with_last_interval` of `merge`.  When the
incoming interval starts past `last.end + 1` it is pushed and becomes the
tracked last interval.  Otherwise the source's
`last_interval.unwrap().1 = i.1` assigns through the copy returned by
`unwrap`, so neither `result` nor `last_interval` changes: both non-push
branches leave the accumulator untouched. -/
def append_or_merge_with_last_interval
    (st : List (Nat × Nat) × Option (Nat × Nat)) (i : Nat × Nat) :
    List (Nat × Nat) × Option (Nat × Nat) :=
  match st.2 with
  | none => (st.1 ++ [i], some i)
  | some li =>
    if i.1 > li.2 + 1 then (st.1 ++ [i], some i)
    else if li.2 < i.2 then st
    else st

/-- The two-pointer walk of `merge` over both interval lists. -/
def merge_go : List (Nat × Nat) → List (Nat × Nat) →
    List (Nat × Nat) × Option (Nat × Nat) → List (Nat × Nat)
  | [], [], st => st.1
  | [], j :: nw, st => merge_go [] nw (append_or_merge_with_last_interval st j)
  | i :: oi, [], st => merge_go oi [] (append_or_merge_with_last_interval st i)
  | i :: oi, j :: nw, st =>
    if i.1 < j.1 then
      merge_go oi (j :: nw) (append_or_merge_with_last_interval st i)
    else
      merge_go (i :: oi) nw (append_or_merge_with_last_interval st j)
termination_by oi nw _ => oi.length + nw.length

/-- `merge` (src/controller/job.rs lines 673-708). -/
def merge (oi : List (Nat × Nat)) (new_intervals : List (Nat × Nat)) :
    List (Nat × Nat) :=
  merge_go oi new_intervals ([], none)

/-- `with_ordered_indexes`: fold fresh single indexes into the interval
list. -/
def with_ordered_indexes (oi : List (Nat × Nat)) (new_indexes : List Nat) :
    List (Nat × Nat) :=
  merge oi (new_indexes.map (fun i => (i, i)))

/-- `calculate_succeeded_indexes`: previous intervals parsed from
`status.completed_indexes` plus the indexes of newly succeeded,
finalizer-carrying pods (a `BTreeSet`, embedded as a sorted duplicate-free
list).  `job.spec.completions.unwrap()` inside the loop panics when
`completions` is absent and a succeeded pod carries an index. -/
def calculate_succeeded_indexes (job : Job) (pods : List Pod) :
    Except String (List (Nat × Nat) × List (Nat × Nat)) :=
  match parse_indexes_from_string job.status.completed_indexes
      (job.spec.completions.getD 0) with
  | Except.error e => Except.error e
  | Except.ok prev_intervals =>
    let step := fun (acc : Except String (List Nat)) (pod : Pod) =>
      match acc with
      | Except.error e => Except.error e
      | Except.ok s =>
        match get_completion_index pod.metadata.annotations with
        | none => Except.ok s
        | some index =>
          if pod.status.phase = PodPhase.Succeeded then
            match job.spec.completions with
            | none => Except.error "unwrap on completions none"
            | some c =>
              if index < c && has_job_tracking_finalizer pod then
                Except.ok (MCO.setInsert (· < ·) index s)
              else Except.ok s
          else Except.ok s
    match pods.foldl step (Except.ok []) with
    | Except.error e => Except.error e
    | Except.ok new_succeeded =>
      Except.ok (prev_intervals,
        with_ordered_indexes prev_intervals new_succeeded)

/-- `after_or_zero`: absent times sort first; among present times the later
one sorts first. -/
def after_or_zero (t1 t2 : Option Nat) : Ordering :=
  if t1.isNone || t2.isNone then
    if t1.isNone then Ordering.lt else Ordering.eq
  else
    (compare (t1.getD 0) (t2.getD 0)).swap

def pod_ready_time (pod : Pod) : Option Nat :=
  if is_pod_ready pod then
    pod.status.conditions.findSome? (fun c =>
      if (c.type = PodConditionType.Ready : Bool) &&
          (c.status = ConditionStatus.True : Bool) then
        c.last_transition_time
      else none)
  else none

def max_container_restarts (pod : Pod) : Nat :=
  ((pod.status.container_statuses.map (fun cs => cs.restart_count)).max?).getD 0

/-- The comparator given to `sort_active_pods`' `sort_by` (section 4.7.1
ordering; the source returns `Equal` rather than `Greater` in the
asymmetric arms of rules 1 and 3). -/
def activePodCmp (p1 p2 : Pod) : Ordering :=
  let len1 := ((p1.spec.node_name.map String.length)).getD 0
  let len2 := ((p2.spec.node_name.map String.length)).getD 0
  if (!(p1.spec.node_name = p2.spec.node_name : Bool)) &&
      ((len1 = 0 : Bool) || (len2 = 0 : Bool)) then
    if len1 = 0 then Ordering.lt else Ordering.eq
  else if !(p1.status.phase.disc = p2.status.phase.disc : Bool) then
    compare p1.status.phase.disc p2.status.phase.disc
  else if !(is_pod_ready p1 = is_pod_ready p2 : Bool) then
    if is_pod_ready p1 then Ordering.eq else Ordering.lt
  else if is_pod_ready p1 && is_pod_ready p2 &&
      !(pod_ready_time p1 = pod_ready_time p2 : Bool) then
    after_or_zero (pod_ready_time p1) (pod_ready_time p2)
  else if !(max_container_restarts p1 = max_container_restarts p2 : Bool) then
    (compare (max_container_restarts p1) (max_container_restarts p2)).swap
  else if !(p1.metadata.creation_timestamp = p2.metadata.creation_timestamp : Bool) then
    after_or_zero p1.metadata.creation_timestamp p2.metadata.creation_timestamp
  else Ordering.eq

/-- Insert `x` after every element that does not compare greater to it:
the insertion step of a stable sort. -/
def insertStableBy {α : Type} (le : α → α → Bool) (x : α) :
    List α → List α
  | [] => [x]
  | y :: ys => if le y x then y :: insertStableBy le x ys else x :: y :: ys

/-- A stable comparison sort (model of `Vec::sort_by` / `sort_by_key`,
which are stable): elements are inserted left to right, each after the
existing elements it does not precede. -/
def sortStableBy {α : Type} (le : α → α → Bool) (l : List α) : List α :=
  l.foldl (fun acc x => insertStableBy le x acc) []

/-- `sort_active_pods`: stable sort by the section 4.7.1 comparator. -/
def sort_active_pods (pods : List Pod) : List Pod :=
  sortStableBy (fun p1 p2 => !(activePodCmp p1 p2 = Ordering.gt : Bool)) pods

end MCO.JobCtl

namespace MCO.JobCtl

/-- `append_pods_with_same_index_for_removal_and_remaining`, as the pair of
pods appended to `rm` and to `left` (the in-place slice sort of the source
is never observed again by its caller, so a pure reading is faithful).
Pods without an index all go to `rm`; a singleton group survives; a larger
group is activity-sorted and all but its most valuable member are
removed. -/
def append_pods_with_same_index_for_removal_and_remaining
    (pods : List Pod) (ix : Option Nat) : List Pod × List Pod :=
  if ix.isNone then (pods, [])
  else if pods.length = 1 then ([], pods)
  else
    let sorted := sort_active_pods pods
    (sorted.take (sorted.length - 1), sorted.drop (sorted.length - 1))

/-- The index loop of `append_duplicated_index_pods_for_removal` over the
key-sorted pod list, carrying `rm`, `left`, `last_index`,
`first_repeat_pos` and `count_looped`; returns their values when the loop
ends (by exhaustion or by the `break` on an out-of-range index, which first
moves the remaining pods to `rm`). -/
def append_dup_loop (pods : List Pod) (completions : Nat) (i : Nat)
    (rm left : List Pod) (last_index : Option Nat)
    (first_repeat_pos count_looped : Nat) :
    List Pod × List Pod × Option Nat × Nat × Nat :=
  match hp : pods.get? i with
  | none => (rm, left, last_index, first_repeat_pos, count_looped)
  | some p =>
    let ix := get_completion_index p.metadata.annotations
    if (match ix with
        | some j => decide (j ≥ completions)
        | none => false) then
      (rm ++ pods.drop i, left, last_index, first_repeat_pos, count_looped)
    else
      if ix ≠ last_index then
        let seg := (pods.drop first_repeat_pos).take (i - first_repeat_pos)
        let (rmA, leftA) :=
          append_pods_with_same_index_for_removal_and_remaining seg last_index
        append_dup_loop pods completions (i + 1) (rm ++ rmA) (left ++ leftA)
          ix i (count_looped + 1)
      else
        append_dup_loop pods completions (i + 1) rm left last_index
          first_repeat_pos (count_looped + 1)
termination_by pods.length - i
decreasing_by
  all_goals
    have : i < pods.length := List.get?_eq_some.mp hp |>.1
    omega

/-- `append_duplicated_index_pods_for_removal` (the function flagged in
spec section 9): sort by completion index, flush each run of equal
indexes, then flush the slice `[first_repeat_pos..count_looped]` once
more after the loop. -/
def append_duplicated_index_pods_for_removal (pods0 : List Pod)
    (completions : Nat) : List Pod × List Pod :=
  let podKey := fun (p : Pod) => get_completion_index p.metadata.annotations
  let keyLe := fun (a b : Option Nat) =>
    match a, b with
    | none, _ => true
    | some _, none => false
    | some x, some y => x ≤ y
  let pods := sortStableBy (fun p q => keyLe (podKey p) (podKey q)) pods0
  let (rm, left, last_index, first_repeat_pos, count_looped) :=
    append_dup_loop pods completions 0 [] [] none 0 0
  let seg := (pods.drop first_repeat_pos).take
    (count_looped - first_repeat_pos)
  let (rmA, leftA) :=
    append_pods_with_same_index_for_removal_and_remaining seg last_index
  (rm ++ rmA, left ++ leftA)

/-- `active_pods_for_removal`: duplicate and out-of-range indexes first (in
indexed mode, where an absent `completions` is an `unwrap` panic), then the
least valuable survivors up to `rm_at_least`. -/
def active_pods_for_removal (job : Job) (pods : List Pod)
    (rm_at_least : Nat) : Except String (List Pod) :=
  let rmleftE : Except String (List Pod × List Pod) :=
    if job.spec.completion_mode = JobCompletionMode.Indexed then
      match job.spec.completions with
      | none => Except.error "unwrap on completions none"
      | some c =>
        Except.ok (append_duplicated_index_pods_for_removal pods c)
    else Except.ok ([], pods)
  match rmleftE with
  | Except.error e => Except.error e
  | Except.ok (rm, left) =>
    if rm.length < rm_at_least then
      Except.ok (rm ++ left.take (rm_at_least - rm.length))
    else Except.ok rm

def count_terminating_pods (pods : List Pod) : Nat :=
  (pods.filter (fun p => is_pod_terminating p)).length

def remove_tracking_finalizer_patch (pod : Pod) :
    Option JobControllerAction :=
  if !has_job_tracking_finalizer pod then none
  else
    let fins := pod.metadata.finalizers.filter
      (fun f => !(f = JOB_TRACKING_FINALIZER : Bool))
    let meta' := { pod.metadata with finalizers := fins }
    let pod' : Pod := { pod with metadata := meta' }
    some (JobControllerAction.UpdatePod pod')

/-- `delete_job_pods`: for the first chosen pod, first strip the tracking
finalizer if still present, otherwise issue the delete. -/
def delete_job_pods (_job : Job) (pods : List Pod) :
    Option JobControllerAction :=
  match pods.head? with
  | none => none
  | some pod =>
    match remove_tracking_finalizer_patch pod with
    | some op => some op
    | none => some (JobControllerAction.DeletePod pod)

/-- `delete_active_pods`: issue the first deletion (deletion timestamps do
the rest). -/
def delete_active_pods (_job : Job) (pods : List Pod) :
    Option JobControllerAction :=
  (pods.head?).map (fun p => JobControllerAction.DeletePod p)

def ensure_job_condition_status (conditions : List JobCondition)
    (cond_type : JobConditionType) (status : ConditionStatus)
    (reason : String) (message : String) (now : Nat) :
    Option (List JobCondition) :=
  match List.findIdx? (fun c => c.type = cond_type) conditions with
  | some idx =>
    match conditions.get? idx with
    | none => none
    | some c =>
      if !(c.status = status : Bool) || !(c.reason = reason : Bool) ||
          !(c.message = message : Bool) then
        let c' := new_condition cond_type status reason message now
        some (conditions.set idx c')
      else none
  | none =>
    if !(status = ConditionStatus.False : Bool) then
      some (conditions ++ [new_condition cond_type status reason message now])
    else none

def get_indexes (pods : List Pod) : List Nat :=
  pods.filterMap (fun p => get_completion_index p.metadata.annotations)

/-- The inner fill of `first_pending_indexes`: push candidates until the
bound `stop` (exclusive), `completions` or `count` stops it. -/
def fill_candidates (completions count stop : Nat) :
    Nat → List Nat → Nat × List Nat
  | candidate, result =>
    if h : candidate < completions ∧ result.length < count ∧
        candidate < stop then
      fill_candidates completions count stop (candidate + 1)
        (result ++ [candidate])
    else (candidate, result)
termination_by candidate _ => stop - candidate
decreasing_by omega

/-- The interval walk of `first_pending_indexes`. -/
def pending_walk (completions count : Nat) :
    List (Nat × Nat) → Nat → List Nat → Nat × List Nat
  | [], candidate, result => (candidate, result)
  | s_interval :: rest, candidate, result =>
    let (candidate1, result1) :=
      fill_candidates completions count s_interval.1 candidate result
    let candidate2 :=
      if candidate1 < s_interval.2 + 1 then s_interval.2 + 1 else candidate1
    pending_walk completions count rest candidate2 result1

/-- `first_pending_indexes`: the lowest `count` indexes in
`[0, completions)` not covered by the non-pending intervals. -/
def first_pending_indexes (count : Nat) (completions : Nat)
    (pods : List Pod) (active_pods : List Pod) (job : Job)
    (succeeded_indexes : List (Nat × Nat)) : List Nat :=
  if count = 0 then []
  else
    let active := get_indexes active_pods
    let non_pending0 := with_ordered_indexes succeeded_indexes active
    let non_pending :=
      if only_replace_failed_pods job then
        with_ordered_indexes non_pending0
          (get_indexes (filter_terminating_pods pods))
      else non_pending0
    let (candidate, result) := pending_walk completions count non_pending 0 []
    (fill_candidates completions count completions candidate result).2

def pod_generate_name_with_index (job_name : String) (index : Nat) :
    String :=
  let maxGeneratedNameLength : Nat := 58
  let append_index := "-" ++ toString index ++ "-"
  let generated := job_name ++ append_index
  if generated.length > maxGeneratedNameLength then
    (generated.take (maxGeneratedNameLength - append_index.length)) ++
      append_index
  else generated

def add_completion_index_annotation_key (template : PodTemplateSpec)
    (index : Nat) : PodTemplateSpec :=
  let anns := MCO.alInsert (fun a b => decide (a < b))
    JOB_COMPLETION_INDEX_ANNOTATION_KEY (toString index)
    template.metadata.annotations
  let meta' := { template.metadata with annotations := anns }
  { template with metadata := meta' }

def append_job_completion_finalizer_if_not_found
    (finalizers : List String) : List String :=
  if !(finalizers.any (fun f => f = JOB_TRACKING_FINALIZER)) then
    finalizers ++ [JOB_TRACKING_FINALIZER]
  else finalizers

def add_completion_index_env_variable (container : Container) : Container :=
  if container.env.any (fun e => e.name = JOB_COMPLETION_INDEX_ENV_NAME) then
    container
  else
    let field_path := "metadata.labels['" ++
      JOB_COMPLETION_INDEX_ANNOTATION_KEY ++ "']"
    let sel : ObjectFieldSelector := { field_path := field_path, api_version := none }
    let src : EnvVarSource := { field_ref := some sel }
    let ev : EnvVar :=
      { name := JOB_COMPLETION_INDEX_ENV_NAME, value := none, value_from := some src }
    { container with env := container.env ++ [ev] }

def add_completion_index_env_variables (template : PodTemplateSpec) :
    PodTemplateSpec :=
  let ics := template.spec.init_containers.map add_completion_index_env_variable
  let cs := template.spec.containers.map add_completion_index_env_variable
  let spec' := { template.spec with init_containers := ics, containers := cs }
  { template with spec := spec' }

def create_pod_with_generate_name (job : Job) (template : PodTemplateSpec)
    (_controller_ref : OwnerReference) (generate_name : String) :
    JobControllerAction :=
  let pod := get_pod_from_template job.metadata template
  let meta' := { pod.metadata with generate_name := generate_name }
  let pod' :=
    if !(generate_name = "" : Bool) then { pod with metadata := meta' }
    else pod
  JobControllerAction.CreatePod pod'

/-- `manage_job` (src/controller/job.rs lines 761-878): delete everything
under suspension; otherwise compute `want_active`, delete surplus pods, or
create one missing pod (with index bookkeeping in indexed mode).  The
`unwrap`s on `completions` in indexed mode are embedded as errors. -/
def manage_job (job : Job) (pods : List Pod) (active_pods : List Pod)
    (succeeded : Nat) (succeeded_indexes : List (Nat × Nat)) :
    Except String (Option JobControllerAction) :=
  let active := active_pods.length
  let parallelism := job.spec.parallelism.getD 0
  if job.spec.suspend then
    match active_pods_for_removal job active_pods active with
    | Except.error e => Except.error e
    | Except.ok pods_to_delete => Except.ok (delete_job_pods job pods_to_delete)
  else
    let terminating :=
      if only_replace_failed_pods job then count_terminating_pods pods else 0
    let want_active :=
      match job.spec.completions with
      | some completions =>
        let wa := completions - succeeded
        if wa > parallelism then parallelism else wa
      | none => if succeeded > 0 then active else parallelism
    let rm_at_least := active + terminating - want_active
    match active_pods_for_removal job active_pods rm_at_least with
    | Except.error e => Except.error e
    | Except.ok pods_to_delete0 =>
      let pods_to_delete :=
        if pods_to_delete0.length > MAX_POD_CREATE_DELETE_PER_SYNC then
          pods_to_delete0.take MAX_POD_CREATE_DELETE_PER_SYNC
        else pods_to_delete0
      if pods_to_delete.length > 0 then
        Except.ok (delete_job_pods job pods_to_delete)
      else
        let diff0 := want_active - terminating - active
        if diff0 > 0 then
          let diff1 :=
            if diff0 > MAX_POD_CREATE_DELETE_PER_SYNC then
              MAX_POD_CREATE_DELETE_PER_SYNC
            else diff0
          let idxE : Except String (List Nat) :=
            if job.spec.completion_mode = JobCompletionMode.Indexed then
              match job.spec.completions with
              | none => Except.error "unwrap on completions none"
              | some c =>
                Except.ok (first_pending_indexes diff1 c pods active_pods job
                  succeeded_indexes)
            else Except.ok []
          match idxE with
          | Except.error e => Except.error e
          | Except.ok indexes_to_add =>
            let pod_template0 := job.spec.template
            let pod_template1 :=
              if job.spec.completion_mode = JobCompletionMode.Indexed then
                add_completion_index_env_variables pod_template0
              else pod_template0
            let fins := append_job_completion_finalizer_if_not_found
              pod_template1.metadata.finalizers
            let meta1 := { pod_template1.metadata with finalizers := fins }
            let pod_template2 : PodTemplateSpec :=
              { pod_template1 with metadata := meta1 }
            let completion_index := indexes_to_add.head?
            match completion_index with
            | some ci =>
              let t1 := add_completion_index_annotation_key pod_template2 ci
              let host := job.metadata.name ++ "-" ++ toString ci
              let spec1 := { t1.spec with hostname := host }
              let t2 : PodTemplateSpec := { t1 with spec := spec1 }
              let generate_name :=
                pod_generate_name_with_index job.metadata.name ci
              Except.ok (some
                (create_pod_with_generate_name job t2
                  (new_controller_ref job.metadata) generate_name))
            | none =>
              Except.ok (some
                (create_pod_with_generate_name job pod_template2
                  (new_controller_ref job.metadata) ""))
        else
          Except.ok none

end MCO.JobCtl

namespace MCO.JobCtl

/-- `track_job_status_and_remove_finalizers` (src/controller/job.rs lines
753-755) is `todo!()`: every call panics, embedded as an error. -/
def track_job_status_and_remove_finalizers (_needs_update : Bool) :
    Except String Unit :=
  Except.error "todo in track job status and remove finalizers"

/-- The finished-condition derivation of `reconcile` (src/controller/job.rs
lines 137-180), in priority order: a prior `FailureTarget` condition, a
`FailJob` rule match, the backoff limit (with Rust's short-circuit `||`:
`past_backoff_limit_on_failure` — and its possible `unwrap` panic — is only
evaluated when `exceeds_backoff_limit` is false), the active deadline, and
finally the `todo!()` requeue arm taken when `active_deadline_seconds` is
set, the job is not suspended and the deadline has not yet passed. -/
def finished_condition_chain (job : Job) (pods : List Pod) (now : Nat)
    (exceeds_backoff_limit : Bool) : Except String (Option JobCondition) :=
  match find_condition_by_type job.status.conditions
      JobConditionType.FailureTarget with
  | some failure_target_condition =>
    Except.ok (some (new_condition JobConditionType.Failed
      ConditionStatus.True failure_target_condition.reason
      failure_target_condition.message now))
  | none =>
    match get_fail_job_message job pods with
    | some fail_job_message =>
      Except.ok (some (new_condition JobConditionType.FailureTarget
        ConditionStatus.True JOB_REASON_POD_FAILURE_POLICY
        fail_job_message now))
    | none =>
      if exceeds_backoff_limit then
        Except.ok (some (new_condition JobConditionType.Failed
          ConditionStatus.True JOB_REASON_BACKOFF_LIMIT_EXCEEDED
          "Job has reached the specified backoff limit" now))
      else
        match past_backoff_limit_on_failure job pods with
        | Except.error e => Except.error e
        | Except.ok pbl =>
          if pbl then
            Except.ok (some (new_condition JobConditionType.Failed
              ConditionStatus.True JOB_REASON_BACKOFF_LIMIT_EXCEEDED
              "Job has reached the specified backoff limit" now))
          else if past_active_deadline job now then
            Except.ok (some (new_condition JobConditionType.Failed
              ConditionStatus.True JOB_REASON_DEADLINE_EXCEEDED
              "Job was active longer than specified deadline" now))
          else if job.spec.active_deadline_seconds.isSome &&
              !job.spec.suspend then
            Except.error "todo requeue for active deadline"
          else
            Except.ok none

/-- The indexed-mode override of `succeeded` (src/controller/job.rs lines
182-190): in `Indexed` mode the derived count becomes
`succeeded_indexes.len()` — the number of INTERVALS in the merged list. -/
def succeeded_override (job : Job) (pods : List Pod) (succeeded0 : Nat) :
    Except String (List (Nat × Nat) × List (Nat × Nat) × Nat) :=
  if job.spec.completion_mode = JobCompletionMode.Indexed then
    match calculate_succeeded_indexes job pods with
    | Except.error e => Except.error e
    | Except.ok (prev, si) => Except.ok (prev, si, si.length)
  else Except.ok ([], [], succeeded0)

/-- The completion test of `reconcile` (src/controller/job.rs lines
212-227): without `completions`, any success with no active pods; with
`completions`, at least that many successes with no active pods. -/
def jobCompleteFlag (job : Job) (succeeded active : Nat) : Bool :=
  match job.spec.completions with
  | none => decide (succeeded > 0) && decide (active = 0)
  | some completions => decide (succeeded ≥ completions) && decide (active = 0)

/-- `reconcile` (src/controller/job.rs lines 109-286).  The only normal
return is the `DeletePod` issued while a terminal condition holds; every
other path reaches either the `todo!()` requeue arm inside the condition
chain, an `unwrap` panic, or the unconditional
`track_job_status_and_remove_finalizers` call, which is `todo!()`.  The
`new_status` mutations (start-time reset, suspended conditions) are
computed as in the source but can never escape. -/
def reconcile (job : Job) (pods : List Pod) (now : Nat) :
    Except String (Option JobControllerAction) :=
  let active_pods := filter_active_pods pods
  let active := active_pods.length
  let uncounted := job.status.uncounted_terminated_pods
  let expected_rm_finalizers : List String := []
  let finished := get_new_finished_pods job pods uncounted
    expected_rm_finalizers
  let new_succeeded_pods := finished.1
  let new_failed_pods := finished.2
  let succeeded0 := job.status.succeeded.getD 0 + new_succeeded_pods.length +
    uncounted.succeeded.length
  let failed := job.status.failed.getD 0 +
    non_ignored_failed_pods_count job new_failed_pods +
    uncounted.failed.length
  let ready := count_ready_pods active_pods
  let _new_status_start_time :=
    if job.status.start_time.isNone && !job.spec.suspend then some now
    else job.status.start_time
  let exceeds_backoff_limit := decide (failed > job.spec.backoff_limit.getD 0)
  match finished_condition_chain job pods now exceeds_backoff_limit with
  | Except.error e => Except.error e
  | Except.ok finished_condition0 =>
    match succeeded_override job pods succeeded0 with
    | Except.error e => Except.error e
    | Except.ok (_prev_succeeded_indexes, succeeded_indexes, succeeded) =>
      if finished_condition0.isSome then
        match delete_active_pods job active_pods with
        | some delete_op => Except.ok (some delete_op)
        | none =>
          let needs_status_update := decide (¬ active = job.status.active) ||
            decide (ready = job.status.ready)
          match track_job_status_and_remove_finalizers needs_status_update with
          | Except.error e => Except.error e
          | Except.ok _ => Except.ok none
      else
        let manageE :=
          if job.metadata.deletion_timestamp.isNone then
            manage_job job pods active_pods succeeded succeeded_indexes
          else Except.ok none
        match manageE with
        | Except.error e => Except.error e
        | Except.ok _manage_result =>
          let manage_job_called := job.metadata.deletion_timestamp.isNone
          let complete := jobCompleteFlag job succeeded active
          let _finished_condition1 :=
            if complete then
              some (new_condition JobConditionType.Complete
                ConditionStatus.True "" "" now)
            else finished_condition0
          let suspend_cond_changed :=
            if complete then false
            else if manage_job_called then
              if job.spec.suspend then
                (ensure_job_condition_status job.status.conditions
                  JobConditionType.Suspended ConditionStatus.True
                  "JobSuspended" "Job suspended" now).isSome
              else
                (ensure_job_condition_status job.status.conditions
                  JobConditionType.Suspended ConditionStatus.False
                  "JobResumed" "Job resumed" now).isSome
            else false
          let needs_status_update := suspend_cond_changed ||
            decide (¬ active = job.status.active) ||
            decide (ready = job.status.ready)
          match track_job_status_and_remove_finalizers needs_status_update with
          | Except.error e => Except.error e
          | Except.ok _ => Except.ok none

/-- Modelled from the spec: the refactored `StateView` fields the job
controller reads (state/mod.rs is missing) — the joined controllers and
the name-keyed job and pod collections, embedded as lists in name
order. -/
structure StateView where
  revision : Nat
  controllers : List Nat
  jobs : List Job
  pods : List Pod
deriving DecidableEq

/-- The per-job loop of `JobController::step`: pods are filtered by the
job's selector; the first job whose `reconcile` yields an action wins. -/
def stepJobsLoop : List Job → List Pod → Nat →
    Except String (Option JobControllerAction)
  | [], _, _ => Except.ok none
  | job :: rest, pods, now =>
    let job_pods := pods.filter
      (fun p => job.spec.selector.matches p.metadata.labels)
    match reconcile job job_pods now with
    | Except.error e => Except.error e
    | Except.ok (some op) => Except.ok (some op)
    | Except.ok none => stepJobsLoop rest pods now

/-- `JobController::step` (src/controller/job.rs lines 81-102): join first,
then reconcile each job in turn. -/
def step (id : Nat) (global_state : StateView) (now : Nat) :
    Except String (Option JobControllerAction) :=
  if !(global_state.controllers.contains id) then
    Except.ok (some (JobControllerAction.ControllerJoin id))
  else
    stepJobsLoop global_state.jobs global_state.pods now

end MCO.JobCtl

namespace MCO

theorem min?_le_mem (l : List Nat) (m a : Nat) (h : l.min? = some m)
    (ha : a ∈ l) : m ≤ a := by
  have hiff := @List.min?_eq_some_iff Nat m _ _ _
    (fun a => le_refl a)
    (fun a b => min_choice a b)
    (fun a b c => le_min_iff) l
  exact (hiff.mp h).2 a ha

theorem alLookup_alInsert_self {κ α : Type} [DecidableEq κ]
    (lt : κ → κ → Bool) (k : κ) (v : α) (m : List (κ × α)) :
    alLookup k (alInsert lt k v m) = some v := by
  induction m with
  | nil => simp [alInsert, alLookup]
  | cons kv rest ih =>
    obtain ⟨k', v'⟩ := kv
    by_cases hk : k = k'
    · simp [alInsert, hk, alLookup]
    · by_cases hlt : lt k k'
      · simp [alInsert, hk, hlt, alLookup]
      · simp [alInsert, hk, hlt, alLookup, ih]

theorem mem_snd_alInsert {κ α : Type} [DecidableEq κ]
    (lt : κ → κ → Bool) (k : κ) (v : α) (m : List (κ × α)) :
    v ∈ (alInsert lt k v m).map Prod.snd := by
  induction m with
  | nil => simp [alInsert]
  | cons kv rest ih =>
    obtain ⟨k', v'⟩ := kv
    by_cases hk : k = k'
    · simp [alInsert, hk]
    · by_cases hlt : lt k k'
      · simp [alInsert, hk, hlt]
      · simp only [alInsert, if_neg hk, if_neg hlt, List.map_cons,
          List.mem_cons]
        exact Or.inr ih

theorem getLast?_dropWhile {α : Type} (p : α → Bool) (l : List α) (a : α)
    (hl : l.getLast? = some a) (hp : p a = false) :
    (l.dropWhile p).getLast? = some a := by
  induction l with
  | nil => simp at hl
  | cons x xs ih =>
    cases xs with
    | nil =>
      simp only [List.getLast?_singleton, Option.some.injEq] at hl
      subst hl
      simp [List.dropWhile_cons, hp]
    | cons y ys =>
      rw [List.getLast?_cons_cons] at hl
      rw [List.dropWhile_cons]
      by_cases hx : p x
      · simpa [hx] using ih hl
      · simp [hx, List.getLast?_cons_cons, hl]

end MCO

namespace MCO.StateRs

theorem apply_change_rev (v : StateView) (c : Change) (w : StateView)
    (h : v.apply_change c = some w) : w.revision = v.revision + 1 := by
  simp only [StateView.apply_change] at h
  rcases Option.map_eq_some'.mp h with ⟨u, _, hu⟩
  subst hu
  rfl

theorem strong_add_change_spec (h : StrongHistory) (c : Change)
    (h' : StrongHistory) (r : Nat) (hs : h.add_change c = some (h', r)) :
    r = h.max_revision + 1 ∧ h'.max_revision = r := by
  unfold StrongHistory.add_change at hs
  rcases Option.map_eq_some'.mp hs with ⟨v, hv, heq⟩
  have hrev := apply_change_rev h.state c v hv
  cases heq
  exact ⟨hrev, rfl⟩

theorem bounded_add_change_spec (h : BoundedHistory) (c : Change)
    (h' : BoundedHistory) (r : Nat) (hs : h.add_change c = some (h', r)) :
    r = h.max_revision + 1 ∧ h'.max_revision = r := by
  unfold BoundedHistory.add_change at hs
  cases hl : h.last_k_states.getLast? with
  | none => rw [hl] at hs; simp at hs
  | some lastState =>
    rw [hl] at hs
    rcases Option.map_eq_some'.mp hs with ⟨st, hst, heq⟩
    have hrev := apply_change_rev lastState c st hst
    replace heq :
        (BoundedHistory.mk h.k
          ((if h.last_k_states.length > h.k then h.last_k_states.drop 1
            else h.last_k_states) ++ [st]), st.revision) = (h', r) := heq
    cases heq
    constructor
    · simp [BoundedHistory.max_revision, hl, hrev]
    · simp [BoundedHistory.max_revision, List.getLast?_concat]

theorem session_add_change_spec (h : SessionHistory) (c : Change)
    (sid : Nat) (h' : SessionHistory) (r : Nat)
    (hs : h.add_change c sid = some (h', r)) :
    r = h.max_revision + 1 ∧ h'.max_revision = r ∧
      MCO.alLookup sid h'.sessions = some r := by
  unfold SessionHistory.add_change at hs
  cases hl : h.states.getLast? with
  | none => rw [hl] at hs; simp at hs
  | some lastState =>
    rw [hl] at hs
    rcases Option.map_eq_some'.mp hs with ⟨st, hst, heq⟩
    have hrev := apply_change_rev lastState c st hst
    replace heq :
        (SessionHistory.mk
          (MCO.alInsert (· < ·) sid st.revision h.sessions)
          ((h.states ++ [st]).dropWhile (fun s => s.revision <
            (((MCO.alInsert (· < ·) sid st.revision h.sessions).map
              (fun kv => kv.2)).min?).getD 0)), st.revision) = (h', r) := heq
    cases heq
    have hmem : st.revision ∈
        (MCO.alInsert (· < ·) sid st.revision h.sessions).map Prod.snd :=
      MCO.mem_snd_alInsert _ _ _ _
    have hminle : (((MCO.alInsert (· < ·) sid st.revision h.sessions).map
        (fun kv => kv.2)).min?).getD 0 ≤ st.revision := by
      cases hmin : ((MCO.alInsert (· < ·) sid st.revision h.sessions).map
          (fun kv => kv.2)).min? with
      | none => simp
      | some m =>
        simpa using MCO.min?_le_mem _ m st.revision hmin hmem
    have hlast : ((h.states ++ [st]).dropWhile (fun s => s.revision <
        (((MCO.alInsert (· < ·) sid st.revision h.sessions).map
          (fun kv => kv.2)).min?).getD 0)).getLast? = some st := by
      apply MCO.getLast?_dropWhile
      · exact List.getLast?_concat _
      · simp only [decide_eq_false_iff_not, Nat.not_lt]
        exact hminle
    refine ⟨?_, ?_, ?_⟩
    · simp [SessionHistory.max_revision, hl, hrev]
    · simp [SessionHistory.max_revision, hlast]
    · exact MCO.alLookup_alInsert_self _ _ _ _

theorem eventual_add_change_spec (h : EventualHistory) (c : Change)
    (h' : EventualHistory) (r : Nat) (hs : h.add_change c = some (h', r)) :
    r = h.max_revision + 1 ∧ h'.max_revision = r := by
  unfold EventualHistory.add_change at hs
  cases hl : h.states.getLast? with
  | none => rw [hl] at hs; simp at hs
  | some lastState =>
    rw [hl] at hs
    rcases Option.map_eq_some'.mp hs with ⟨st, hst, heq⟩
    have hrev := apply_change_rev lastState c st hst
    cases heq
    constructor
    · simp [EventualHistory.max_revision, hl, hrev]
    · simp [EventualHistory.max_revision, List.getLast?_concat]

end MCO.StateRs

namespace MCO.HistNew

theorem optimistic_add_change_spec {σ ω : Type} (applyData : ω → σ → σ)
    (h : OptimisticLinearHistory σ) (c : Change ω)
    (h' : OptimisticLinearHistory σ) (r : Nat)
    (hs : h.add_change applyData c = some (h', r)) :
    r = h.max_revision + 1 ∧ h'.max_revision = r := by
  unfold OptimisticLinearHistory.add_change at hs
  split at hs
  · exact absurd hs (by simp)
  case _ index hidx =>
    split at hs
    · exact absurd hs (by simp)
    case _ base hget =>
      by_cases h1 : index + 1 = h.states.length
      · by_cases h2 : h.states.length > h.commit_every
        · replace hs :
            some ((OptimisticLinearHistory.mk
              [base.apply_operation applyData c.operation
                (h.max_revision + 1)] h.commit_every),
              (OptimisticLinearHistory.mk
              [base.apply_operation applyData c.operation
                (h.max_revision + 1)] h.commit_every).max_revision) =
              some (h', r) := by
            rw [← hs]; simp [h1, h2]
          injection hs with hs
          rw [Prod.mk.injEq] at hs
          obtain ⟨rfl, rfl⟩ := hs
          exact ⟨by simp [OptimisticLinearHistory.max_revision,
            StateView.apply_operation], rfl⟩
        · replace hs :
            some ((OptimisticLinearHistory.mk
              (h.states ++ [base.apply_operation applyData c.operation
                (h.max_revision + 1)]) h.commit_every),
              (OptimisticLinearHistory.mk
              (h.states ++ [base.apply_operation applyData c.operation
                (h.max_revision + 1)]) h.commit_every).max_revision) =
              some (h', r) := by
            rw [← hs]; simp [h1, h2]
          injection hs with hs
          rw [Prod.mk.injEq] at hs
          obtain ⟨rfl, rfl⟩ := hs
          exact ⟨by simp [OptimisticLinearHistory.max_revision,
            List.getLast?_concat, StateView.apply_operation], rfl⟩
      · replace hs :
          some ((OptimisticLinearHistory.mk
            [base, base.apply_operation applyData c.operation
              (h.max_revision + 1)] h.commit_every),
            (OptimisticLinearHistory.mk
            [base, base.apply_operation applyData c.operation
              (h.max_revision + 1)] h.commit_every).max_revision) =
            some (h', r) := by
          rw [← hs]; simp [h1]
        injection hs with hs
        rw [Prod.mk.injEq] at hs
        obtain ⟨rfl, rfl⟩ := hs
        refine ⟨?_, rfl⟩
        simp [OptimisticLinearHistory.max_revision, List.getLast?,
          StateView.apply_operation]

end MCO.HistNew

namespace MCO

/-- C1: for every history strategy (Strong, Bounded, Session, Eventual,
OptimisticLinear) and every sequence of `add_change` calls from any
initial state, the revisions returned by successive (non-panicking)
`add_change` calls are pairwise strictly increasing; moreover every
successful OptimisticLinear `add_change` — in particular one whose
`change.revision` names a retained non-tail (committed) view — returns a
revision strictly greater than the previous maximum, hence greater than
every revision previously returned. -/
theorem C1_revisions_strictly_increasing :
    (∀ (h : StateRs.StrongHistory) (cs : List StateRs.Change),
      List.Pairwise (· < ·)
        (MCO.runHist (fun h c => StateRs.StrongHistory.add_change h c) h cs)) ∧
    (∀ (h : StateRs.BoundedHistory) (cs : List StateRs.Change),
      List.Pairwise (· < ·)
        (MCO.runHist (fun h c => StateRs.BoundedHistory.add_change h c) h cs)) ∧
    (∀ (sid : Nat) (h : StateRs.SessionHistory) (cs : List StateRs.Change),
      List.Pairwise (· < ·)
        (MCO.runHist (fun h c => StateRs.SessionHistory.add_change h c sid) h cs)) ∧
    (∀ (h : StateRs.EventualHistory) (cs : List StateRs.Change),
      List.Pairwise (· < ·)
        (MCO.runHist (fun h c => StateRs.EventualHistory.add_change h c) h cs)) ∧
    (∀ (σ ω : Type) (applyData : ω → σ → σ)
      (h : HistNew.OptimisticLinearHistory σ) (cs : List (HistNew.Change ω)),
      List.Pairwise (· < ·)
        (MCO.runHist
          (fun h c => HistNew.OptimisticLinearHistory.add_change applyData h c)
          h cs)) ∧
    (∀ (σ ω : Type) (applyData : ω → σ → σ)
      (h : HistNew.OptimisticLinearHistory σ) (c : HistNew.Change ω)
      (h' : HistNew.OptimisticLinearHistory σ) (r : Nat),
      HistNew.OptimisticLinearHistory.add_change applyData h c = some (h', r) →
      h.max_revision < r ∧ h'.max_revision = r) := by
  refine ⟨?_, ?_, ?_, ?_, ?_, ?_⟩
  · intro h cs
    have := MCO.runHist_chain _ StateRs.StrongHistory.max_revision
      (fun h c h' r hs => StateRs.strong_add_change_spec h c h' r hs) cs h
    exact List.chain'_iff_pairwise.mp this.1
  · intro h cs
    have := MCO.runHist_chain _ StateRs.BoundedHistory.max_revision
      (fun h c h' r hs => StateRs.bounded_add_change_spec h c h' r hs) cs h
    exact List.chain'_iff_pairwise.mp this.1
  · intro sid h cs
    have := MCO.runHist_chain _ StateRs.SessionHistory.max_revision
      (fun h c h' r hs =>
        ⟨(StateRs.session_add_change_spec h c sid h' r hs).1,
         (StateRs.session_add_change_spec h c sid h' r hs).2.1⟩) cs h
    exact List.chain'_iff_pairwise.mp this.1
  · intro h cs
    have := MCO.runHist_chain _ StateRs.EventualHistory.max_revision
      (fun h c h' r hs => StateRs.eventual_add_change_spec h c h' r hs) cs h
    exact List.chain'_iff_pairwise.mp this.1
  · intro σ ω applyData h cs
    have := MCO.runHist_chain _ HistNew.OptimisticLinearHistory.max_revision
      (fun h c h' r hs =>
        HistNew.optimistic_add_change_spec applyData h c h' r hs) cs h
    exact List.chain'_iff_pairwise.mp this.1
  · intro σ ω applyData h c h' r hs
    have := HistNew.optimistic_add_change_spec applyData h c h' r hs
    exact ⟨by omega, this.2⟩

/-- Witness for C1: a concrete OptimisticLinear history with three retained
views; a change at the non-tail committed revision 0 returns revision 3,
strictly above the previous maximum 2. -/
theorem C1_revisions_strictly_increasing_witness :
    HistNew.OptimisticLinearHistory.add_change (fun (_ : Unit) (u : Unit) => u)
      (HistNew.OptimisticLinearHistory.mk
        [⟨0, ()⟩, ⟨1, ()⟩, ⟨2, ()⟩] 5) (HistNew.Change.mk 0 ()) =
      some (HistNew.OptimisticLinearHistory.mk [⟨0, ()⟩, ⟨3, ()⟩] 5, 3) ∧
    (HistNew.OptimisticLinearHistory.mk
      [⟨0, ()⟩, ⟨1, ()⟩, ⟨2, ()⟩] 5 :
      HistNew.OptimisticLinearHistory Unit).max_revision < 3 ∧
    (HistNew.OptimisticLinearHistory.mk [⟨0, ()⟩, ⟨3, ()⟩] 5 :
      HistNew.OptimisticLinearHistory Unit).max_revision = 3 := by
  have h1 : HistNew.OptimisticLinearHistory.add_change
      (fun (_ : Unit) (u : Unit) => u)
      (HistNew.OptimisticLinearHistory.mk
        [⟨0, ()⟩, ⟨1, ()⟩, ⟨2, ()⟩] 5) (HistNew.Change.mk 0 ()) =
      some (HistNew.OptimisticLinearHistory.mk [⟨0, ()⟩, ⟨3, ()⟩] 5, 3) := by
    rfl
  exact ⟨h1, C1_revisions_strictly_increasing.2.2.2.2.2 Unit Unit _ _ _ _ _ h1⟩

end MCO

namespace MCO.HistNew

theorem findRevIdx_of_get {σ : Type} (states : List (StateView σ))
    (i : Nat) (vi : StateView σ)
    (hsort : List.Pairwise (fun a b => a.revision < b.revision) states)
    (hget : states.get? i = some vi) :
    findRevIdx vi.revision states = some i := by
  induction states generalizing i with
  | nil => simp at hget
  | cons x xs ih =>
    cases i with
    | zero =>
      simp only [List.get?_cons_zero, Option.some.injEq] at hget
      subst hget
      simp [findRevIdx]
    | succ j =>
      simp only [List.get?_cons_succ] at hget
      have hmem : vi ∈ xs := List.get?_mem hget
      have hlt : x.revision < vi.revision :=
        (List.pairwise_cons.mp hsort).1 vi hmem
      have hne : ¬ (x.revision = vi.revision) := by omega
      simp only [findRevIdx, if_neg hne]
      rw [ih j (List.pairwise_cons.mp hsort).2 hget]
      rfl

/-- C3: for `OptimisticLinearHistory::add_change` on a history whose
retained revisions are strictly increasing, a change at the tail view's
revision extends the chain with the mutated view — collapsing to just the
new tail once the chain length exceeds `commit_every` — while a change at
any retained non-tail view's revision leaves exactly two views: the
baseline view followed by the newly mutated view. -/
theorem C3_optimistic_add_change_shape {σ ω : Type}
    (applyData : ω → σ → σ) (h : OptimisticLinearHistory σ)
    (c : Change ω) (i : Nat) (vi : StateView σ)
    (hsort : List.Pairwise (fun a b => a.revision < b.revision) h.states)
    (hget : h.states.get? i = some vi)
    (hrev : c.revision = vi.revision) :
    h.add_change applyData c =
      some (OptimisticLinearHistory.mk
        (if i + 1 = h.states.length then
          (if h.states.length > h.commit_every then
            [vi.apply_operation applyData c.operation (h.max_revision + 1)]
          else
            h.states ++
              [vi.apply_operation applyData c.operation (h.max_revision + 1)])
        else
          [vi, vi.apply_operation applyData c.operation (h.max_revision + 1)])
        h.commit_every,
        h.max_revision + 1) := by
  have hfind : findRevIdx c.revision h.states = some i := by
    rw [hrev]; exact findRevIdx_of_get h.states i vi hsort hget
  unfold OptimisticLinearHistory.add_change
  rw [hfind]
  simp only [hget]
  by_cases h1 : i + 1 = h.states.length
  · by_cases h2 : h.states.length > h.commit_every
    · simp [h1, h2, OptimisticLinearHistory.max_revision,
        StateView.apply_operation]
    · simp [h1, h2, OptimisticLinearHistory.max_revision,
        List.getLast?_concat, StateView.apply_operation]
  · simp [h1, OptimisticLinearHistory.max_revision, List.getLast?,
      StateView.apply_operation]

/-- Witness for C3: with retained revisions `[0, 1, 2]`, a change at the
non-tail revision 0 (commit_every 5) leaves the baseline and the mutated
view; a change at the tail revision 2 with commit_every 2 (chain length 3
exceeds it) collapses to just the new tail. -/
theorem C3_optimistic_add_change_shape_witness :
    OptimisticLinearHistory.add_change (fun (_ : Unit) (u : Unit) => u)
      (OptimisticLinearHistory.mk [⟨0, ()⟩, ⟨1, ()⟩, ⟨2, ()⟩] 5)
      (Change.mk 0 ()) =
      some (OptimisticLinearHistory.mk [⟨0, ()⟩, ⟨3, ()⟩] 5, 3) ∧
    OptimisticLinearHistory.add_change (fun (_ : Unit) (u : Unit) => u)
      (OptimisticLinearHistory.mk [⟨0, ()⟩, ⟨1, ()⟩, ⟨2, ()⟩] 2)
      (Change.mk 2 ()) =
      some (OptimisticLinearHistory.mk [⟨3, ()⟩] 2, 3) := by
  constructor
  · have := C3_optimistic_add_change_shape
      (fun (_ : Unit) (u : Unit) => u)
      (OptimisticLinearHistory.mk [⟨0, ()⟩, ⟨1, ()⟩, ⟨2, ()⟩] 5)
      (Change.mk 0 ()) 0 ⟨0, ()⟩ (by decide) (by rfl) (by rfl)
    simpa using this
  · have := C3_optimistic_add_change_shape
      (fun (_ : Unit) (u : Unit) => u)
      (OptimisticLinearHistory.mk [⟨0, ()⟩, ⟨1, ()⟩, ⟨2, ()⟩] 2)
      (Change.mk 2 ()) 2 ⟨2, ()⟩ (by decide) (by rfl) (by rfl)
    simpa using this

end MCO.HistNew

namespace MCO

theorem find_rev_exists {α : Type} (rev : α → Nat) (l : List α) (r : Nat)
    (hmem : r ∈ l.map rev) :
    ∃ v, l.find? (fun s => rev s = r) = some v ∧ rev v = r := by
  obtain ⟨v, hv, hrv⟩ := List.mem_map.mp hmem
  have hsome : (l.find? (fun s => rev s = r)).isSome :=
    List.find?_isSome.mpr ⟨v, hv, by simp [hrv]⟩
  obtain ⟨w, hw⟩ := Option.isSome_iff_exists.mp hsome
  refine ⟨w, hw, ?_⟩
  simpa using List.find?_some hw

end MCO

namespace MCO.StateRs

theorem eventual_step_indexed (h : EventualHistory) (c : Change)
    (h' : EventualHistory) (r : Nat) (hs : h.add_change c = some (h', r))
    (hh : ∀ i v, h.states.get? i = some v → v.revision = i) :
    ∀ i v, h'.states.get? i = some v → v.revision = i := by
  unfold EventualHistory.add_change at hs
  cases hl : h.states.getLast? with
  | none => rw [hl] at hs; simp at hs
  | some lastState =>
    rw [hl] at hs
    rcases Option.map_eq_some'.mp hs with ⟨st, hst, heq⟩
    have hrev := apply_change_rev lastState c st hst
    cases heq
    intro i v hv
    have hlen : h.states.length ≠ 0 := by
      intro h0
      rw [List.length_eq_zero.mp h0] at hl
      simp at hl
    have hlastget : h.states.get? (h.states.length - 1) = some lastState := by
      rw [← List.getLast?_eq_get?]; exact hl
    have hlastrev : lastState.revision = h.states.length - 1 :=
      hh _ _ hlastget
    by_cases hi : i < h.states.length
    · rw [List.get?_append hi] at hv
      exact hh i v hv
    · by_cases hieq : i = h.states.length
      · subst hieq
        rw [List.get?_concat_length] at hv
        cases hv
        omega
      · exfalso
        have : (h.states ++ [st]).length ≤ i := by
          simp only [List.length_append, List.length_singleton]
          omega
        rw [List.get?_eq_none.mpr this] at hv
        cases hv

theorem eventual_runFrom_indexed (cs : List Change) :
    ∀ (h : EventualHistory),
      (∀ i v, h.states.get? i = some v → v.revision = i) →
      ∀ i v, (EventualHistory.runFrom h cs).states.get? i = some v →
        v.revision = i := by
  induction cs with
  | nil => exact fun h hh => hh
  | cons c cs ih =>
    intro h hh
    unfold EventualHistory.runFrom
    cases hac : h.add_change c with
    | none => exact hh
    | some pr =>
      obtain ⟨h', r⟩ := pr
      exact ih h' (eventual_step_indexed h c h' r hac hh)

theorem eventual_run_indexed (init : StateView) (cs : List Change)
    (h0 : init.revision = 0) :
    ∀ i v, (EventualHistory.run init cs).states.get? i = some v →
      v.revision = i := by
  apply eventual_runFrom_indexed
  intro i v hv
  cases i with
  | zero => simp at hv; cases hv; exact h0
  | succ j => simp at hv

end MCO.StateRs

namespace MCO

/-- C9: for every history strategy and every revision `r` it currently
retains (an element of `valid_revisions` for some session), `state_at r`
returns a view whose revision equals `r`; for `EventualHistory` (whose
`state_at` indexes the list with the revision) this holds for every
revision issued since an initial state at revision zero. -/
theorem C9_state_at_returns_requested_revision :
    (∀ (h : StateRs.StrongHistory) (sid r : Nat),
      r ∈ h.valid_revisions sid →
      ∃ v, h.state_at r = some v ∧ v.revision = r) ∧
    (∀ (h : StateRs.BoundedHistory) (sid r : Nat),
      r ∈ h.valid_revisions sid →
      ∃ v, h.state_at r = some v ∧ v.revision = r) ∧
    (∀ (h : StateRs.SessionHistory) (sid r : Nat),
      r ∈ h.valid_revisions sid →
      ∃ v, h.state_at r = some v ∧ v.revision = r) ∧
    (∀ (σ : Type) (h : HistNew.OptimisticLinearHistory σ) (sid r : Nat),
      r ∈ h.valid_revisions sid →
      ∃ v, h.state_at r = some v ∧ v.revision = r) ∧
    (∀ (init : StateRs.StateView) (cs : List StateRs.Change),
      init.revision = 0 → ∀ (sid r : Nat),
      r ∈ (StateRs.EventualHistory.run init cs).valid_revisions sid →
      ∃ v, (StateRs.EventualHistory.run init cs).state_at r = some v ∧
        v.revision = r) := by
  refine ⟨?_, ?_, ?_, ?_, ?_⟩
  · intro h sid r hr
    simp only [StateRs.StrongHistory.valid_revisions, List.mem_singleton]
      at hr
    subst hr
    exact ⟨h.state, by simp [StateRs.StrongHistory.state_at], rfl⟩
  · intro h sid r hr
    have hr' : r ∈ h.last_k_states.map (fun s => s.revision) := hr
    exact MCO.find_rev_exists (fun s => s.revision) h.last_k_states r hr'
  · intro h sid r hr
    have hr' : r ∈ h.states.map (fun s => s.revision) := by
      simp only [StateRs.SessionHistory.valid_revisions, List.mem_map,
        List.mem_filter] at hr
      obtain ⟨v, ⟨hv, _⟩, hrv⟩ := hr
      exact List.mem_map.mpr ⟨v, hv, hrv⟩
    exact MCO.find_rev_exists (fun s => s.revision) h.states r hr'
  · intro σ h sid r hr
    have hr' : r ∈ h.states.map (fun s => s.revision) := hr
    exact MCO.find_rev_exists (fun s => s.revision) h.states r hr'
  · intro init cs h0 sid r hr
    simp only [StateRs.EventualHistory.valid_revisions, List.mem_map] at hr
    obtain ⟨v, hv, hrv⟩ := hr
    obtain ⟨n, hn⟩ := List.get?_of_mem hv
    have := StateRs.eventual_run_indexed init cs h0 n v hn
    refine ⟨v, ?_, hrv⟩
    unfold StateRs.EventualHistory.state_at
    rw [← hrv, this]
    exact hn

/-- Witness for C9: an eventual history seeded at revision zero and run
through one change retains revision 1, and `state_at 1` returns the view
at revision 1. -/
theorem C9_state_at_returns_requested_revision_witness :
    1 ∈ (StateRs.EventualHistory.run
      (StateRs.StateView.mk 0 [] [] [] [] [] [])
      [StateRs.Change.mk 0 (StateRs.Operation.ControllerJoin 7)]).valid_revisions 0 ∧
    (∃ v, (StateRs.EventualHistory.run
      (StateRs.StateView.mk 0 [] [] [] [] [] [])
      [StateRs.Change.mk 0 (StateRs.Operation.ControllerJoin 7)]).state_at 1 =
        some v ∧ v.revision = 1) := by
  refine ⟨by decide, ?_⟩
  exact C9_state_at_returns_requested_revision.2.2.2.2
    (StateRs.StateView.mk 0 [] [] [] [] [] [])
    [StateRs.Change.mk 0 (StateRs.Operation.ControllerJoin 7)]
    (by rfl) 0 1 (by decide)

end MCO

namespace MCO.StateRs

/-- C8: `SessionHistory::valid_revisions(session)` returns exactly the
revisions of retained views at or above the session's recorded high-water
(every retained view's revision when the session is unknown), and
`add_change` records the caller's high-water as the newly returned maximum
revision, so the caller's subsequent `valid_revisions` only contains
revisions at or above its own last write. -/
theorem C8_session_valid_revisions :
    (∀ (h : SessionHistory) (sid r : Nat),
      r ∈ h.valid_revisions sid ↔
        ∃ v ∈ h.states, v.revision = r ∧
          (MCO.alLookup sid h.sessions).getD 0 ≤ r) ∧
    (∀ (h : SessionHistory) (sid : Nat),
      MCO.alLookup sid h.sessions = none →
      h.valid_revisions sid = h.states.map (fun s => s.revision)) ∧
    (∀ (h : SessionHistory) (c : Change) (sid : Nat)
      (h' : SessionHistory) (r : Nat),
      h.add_change c sid = some (h', r) →
      MCO.alLookup sid h'.sessions = some r ∧ r = h'.max_revision ∧
        ∀ x ∈ h'.valid_revisions sid, r ≤ x) := by
  refine ⟨?_, ?_, ?_⟩
  · intro h sid r
    simp only [SessionHistory.valid_revisions, List.mem_map,
      List.mem_filter, ge_iff_le, decide_eq_true_eq]
    constructor
    · rintro ⟨v, ⟨hv, hge⟩, hrv⟩
      exact ⟨v, hv, hrv, hrv ▸ hge⟩
    · rintro ⟨v, hv, hrv, hge⟩
      exact ⟨v, ⟨hv, hrv ▸ hge⟩, hrv⟩
  · intro h sid hnone
    simp [SessionHistory.valid_revisions, hnone]
  · intro h c sid h' r hs
    obtain ⟨h1, h2, h3⟩ := session_add_change_spec h c sid h' r hs
    refine ⟨h3, h2.symm, ?_⟩
    intro x hx
    simp only [SessionHistory.valid_revisions, List.mem_map,
      List.mem_filter, ge_iff_le, decide_eq_true_eq, h3] at hx
    obtain ⟨v, ⟨hv, hge⟩, hrv⟩ := hx
    simpa [hrv] using hge

/-- Witness for C8: a single-view history at revision 0; session 5 writes a
change and afterwards its recorded high-water is the returned revision 1,
which bounds every revision in its `valid_revisions`. -/
theorem C8_session_valid_revisions_witness :
    SessionHistory.add_change
      (SessionHistory.mk [] [StateView.mk 0 [] [] [] [] [] []])
      (Change.mk 0 (Operation.ControllerJoin 3)) 5 =
      some (SessionHistory.mk [(5, 1)]
        [StateView.mk 1 [] [(3 : Nat)] [] [] [] []], 1) ∧
    MCO.alLookup 5 [((5 : Nat), (1 : Nat))] = some 1 ∧
    (∀ x ∈ (SessionHistory.mk [(5, 1)]
      [StateView.mk 1 [] [(3 : Nat)] [] [] [] []]).valid_revisions 5,
      1 ≤ x) := by
  have hadd : SessionHistory.add_change
      (SessionHistory.mk [] [StateView.mk 0 [] [] [] [] [] []])
      (Change.mk 0 (Operation.ControllerJoin 3)) 5 =
      some (SessionHistory.mk [(5, 1)]
        [StateView.mk 1 [] [(3 : Nat)] [] [] [] []], 1) := by decide
  have h3 := C8_session_valid_revisions.2.2
    (SessionHistory.mk [] [StateView.mk 0 [] [] [] [] [] []])
    (Change.mk 0 (Operation.ControllerJoin 3)) 5
    (SessionHistory.mk [(5, 1)]
      [StateView.mk 1 [] [(3 : Nat)] [] [] [] []]) 1 hadd
  exact ⟨hadd, h3.1, h3.2.2⟩

/-- C10: the derived equality and hash of `StateView` ignore the
`revision` field — two views with identical nodes, controllers, pods,
replica_sets, deployments and statefulsets compare equal and feed
identical data to the hasher, whatever their revisions. -/
theorem C10_stateview_eq_hash_ignore_revision
    (v w : StateView)
    (hn : v.nodes = w.nodes) (hc : v.controllers = w.controllers)
    (hp : v.pods = w.pods) (hr : v.replica_sets = w.replica_sets)
    (hd : v.deployments = w.deployments)
    (hs : v.statefulsets = w.statefulsets) :
    StateView.beqIgnoringRevision v w = true ∧
      v.hashedFields = w.hashedFields := by
  constructor
  · simp [StateView.beqIgnoringRevision, hn, hc, hp, hr, hd, hs]
  · simp [StateView.hashedFields, hn, hc, hp, hr, hd, hs]

/-- Witness for C10: two concrete views that differ only in the revision
(0 versus 41) are equal under the derived equality and hash to the same
data. -/
theorem C10_stateview_eq_hash_ignore_revision_witness :
    (StateView.mk 0 [] [(7 : Nat)] [] [] [] []).revision ≠
      (StateView.mk 41 [] [(7 : Nat)] [] [] [] []).revision ∧
    StateView.beqIgnoringRevision
      (StateView.mk 0 [] [(7 : Nat)] [] [] [] [])
      (StateView.mk 41 [] [(7 : Nat)] [] [] [] []) = true ∧
    (StateView.mk 0 [] [(7 : Nat)] [] [] [] []).hashedFields =
      (StateView.mk 41 [] [(7 : Nat)] [] [] [] []).hashedFields := by
  have h := C10_stateview_eq_hash_ignore_revision
    (StateView.mk 0 [] [(7 : Nat)] [] [] [] [])
    (StateView.mk 41 [] [(7 : Nat)] [] [] [] [])
    rfl rfl rfl rfl rfl rfl
  exact ⟨by decide, h.1, h.2⟩

end MCO.StateRs

namespace MCO.Res

theorem getPos_none {σ : Type} (rs : Resources σ) (name : String)
    (h : Resources.getPos rs name = none) :
    Resources.get rs name = none := by
  induction rs with
  | nil => rfl
  | cons t rest ih =>
    unfold Resources.getPos at h
    by_cases ht : t.metadata.name = name
    · simp [ht] at h
    · simp only [if_neg ht, Option.map_eq_none'] at h
      simp only [Resources.get, List.find?_cons, decide_eq_false ht]
      exact ih h

theorem getPos_some {σ : Type} (rs : Resources σ) (name : String) (i : Nat)
    (h : Resources.getPos rs name = some i) :
    ∃ e, List.get? rs i = some e ∧ Resources.get rs name = some e ∧
      e.metadata.name = name := by
  induction rs generalizing i with
  | nil => simp [Resources.getPos] at h
  | cons t rest ih =>
    unfold Resources.getPos at h
    by_cases ht : t.metadata.name = name
    · simp only [if_pos ht, Option.some.injEq] at h
      subst h
      refine ⟨t, rfl, ?_, ht⟩
      simp only [Resources.get, List.find?_cons, decide_eq_true ht]
    · simp only [if_neg ht, Option.map_eq_some'] at h
      obtain ⟨j, hj, hji⟩ := h
      subst hji
      obtain ⟨e, he1, he2, he3⟩ := ih j hj
      refine ⟨e, by simpa using he1, ?_, he3⟩
      simp only [Resources.get, List.find?_cons, decide_eq_false ht]
      exact he2

/-- C2: `Resources::insert(res, revision)` fails exactly when an entry with
the same name already exists and either its uid differs from `res`'s, or
`res` carries a non-empty resource_version differing from the stored one;
every failing call leaves the collection unchanged, and every other call
returns `Ok`. -/
theorem C2_resources_insert {σ : Type} [DecidableEq σ]
    (rs : Resources σ) (res : Resource σ) (revision : Nat) :
    ((Resources.insert rs res revision).1 = Except.error () ↔
      ∃ e, Resources.get rs res.metadata.name = some e ∧
        (e.metadata.uid ≠ res.metadata.uid ∨
          (res.metadata.resource_version ≠ "" ∧
            e.metadata.resource_version ≠ res.metadata.resource_version))) ∧
    ((Resources.insert rs res revision).1 = Except.error () →
      (Resources.insert rs res revision).2 = rs) ∧
    ((¬ ∃ e, Resources.get rs res.metadata.name = some e ∧
        (e.metadata.uid ≠ res.metadata.uid ∨
          (res.metadata.resource_version ≠ "" ∧
            e.metadata.resource_version ≠ res.metadata.resource_version))) →
      (Resources.insert rs res revision).1 = Except.ok ()) := by
  set ins := Resources.insert rs res revision with hins
  unfold Resources.insert at hins
  split at hins
  case _ pos hpos =>
    obtain ⟨e, hge, hget, hname⟩ := getPos_some rs res.metadata.name pos hpos
    split at hins
    case _ hnone => rw [hnone] at hge; cases hge
    case _ existing hsome =>
      rw [hsome] at hge
      injection hge with hge
      subst hge
      split at hins
      case _ huid =>
        refine ⟨?_, ?_, ?_⟩
        · simp only [hins]
          simp only [true_iff, reduceCtorEq]
          exact ⟨existing, hget, Or.inl huid⟩
        · intro _; simp [hins]
        · intro hno
          exact absurd ⟨existing, hget, Or.inl huid⟩ hno
      case _ huid =>
        have huid' : existing.metadata.uid = res.metadata.uid := by
          by_contra hc; exact huid hc
        split at hins
        case _ hrv =>
          refine ⟨?_, ?_, ?_⟩
          · simp only [hins]
            simp only [true_iff, reduceCtorEq]
            exact ⟨existing, hget, Or.inr hrv⟩
          · intro _; simp [hins]
          · intro hno
            exact absurd ⟨existing, hget, Or.inr hrv⟩ hno
        case _ hrv =>
          refine ⟨?_, ?_, ?_⟩
          · simp only [hins]
            constructor
            · intro hcontra; cases hcontra
            · rintro ⟨e', he', hbad⟩
              rw [hget] at he'
              injection he' with he'
              subst he'
              rcases hbad with hbad | hbad
              · exact (hbad huid').elim
              · exact (hrv hbad).elim
          · intro hcontra
            rw [hins] at hcontra
            cases hcontra
          · intro _; simp [hins]
  case _ hpos =>
    have hget := getPos_none rs res.metadata.name hpos
    refine ⟨?_, ?_, ?_⟩
    · simp only [hins]
      constructor
      · intro hcontra; cases hcontra
      · rintro ⟨e', he', _⟩
        rw [hget] at he'
        cases he'
    · intro hcontra
      rw [hins] at hcontra
      cases hcontra
    · intro _; simp [hins]

end MCO.Res

namespace MCO.Res

/-- A concrete metadata block used by the C2 witness. -/
def mdWitness (name uid rv : String) : Metadata :=
  { name := name, namespace_ := "", generate_name := "", uid := uid,
    resource_version := rv, generation := 0, labels := [],
    annotations := [], finalizers := [], owner_references := [],
    deletion_timestamp := none, creation_timestamp := none }

/-- Witness for C2: inserting a resource whose name is already taken by an
entry with a different uid fails and leaves the collection unchanged,
while inserting into an empty collection succeeds. -/
theorem C2_resources_insert_witness :
    (Resources.insert [Resource.mk (mdWitness "a" "u1" "") (0 : Nat)]
      (Resource.mk (mdWitness "a" "u2" "") (0 : Nat)) 5).1 =
      Except.error () ∧
    (Resources.insert [Resource.mk (mdWitness "a" "u1" "") (0 : Nat)]
      (Resource.mk (mdWitness "a" "u2" "") (0 : Nat)) 5).2 =
      [Resource.mk (mdWitness "a" "u1" "") (0 : Nat)] ∧
    (Resources.insert ([] : Resources Nat)
      (Resource.mk (mdWitness "a" "u2" "") (0 : Nat)) 5).1 =
      Except.ok () := by
  have h := C2_resources_insert
    [Resource.mk (mdWitness "a" "u1" "") (0 : Nat)]
    (Resource.mk (mdWitness "a" "u2" "") (0 : Nat)) 5
  have herr : (Resources.insert
      [Resource.mk (mdWitness "a" "u1" "") (0 : Nat)]
      (Resource.mk (mdWitness "a" "u2" "") (0 : Nat)) 5).1 =
      Except.error () :=
    h.1.mpr ⟨Resource.mk (mdWitness "a" "u1" "") (0 : Nat),
      by decide, Or.inl (by decide)⟩
  have hok := (C2_resources_insert ([] : Resources Nat)
    (Resource.mk (mdWitness "a" "u2" "") (0 : Nat)) 5).2.2
    (by rintro ⟨e, he, _⟩; cases he)
  exact ⟨herr, h.2.1 herr, hok⟩

end MCO.Res

namespace MCO.JobCtl

/-- A minimal pod spec for concrete jobs. -/
def podSpecNil : PodSpec :=
  { node_name := none, hostname := "", restart_policy := none,
    containers := [], init_containers := [] }

/-- A minimal metadata block for concrete jobs. -/
def mdNil : MCO.Res.Metadata :=
  { name := "j", namespace_ := "", generate_name := "", uid := "u",
    resource_version := "", generation := 0, labels := [],
    annotations := [], finalizers := [], owner_references := [],
    deletion_timestamp := none, creation_timestamp := none }

/-- A baseline job spec: not suspended, no parallelism, no completions, no
backoff limit, no deadline, non-indexed, no failure policy. -/
def jobSpecNil : JobSpec :=
  { selector := LabelSelector.mk [], suspend := false, parallelism := none,
    completions := none, backoff_limit := none,
    active_deadline_seconds := none,
    completion_mode := JobCompletionMode.NonIndexed,
    pod_failure_policy := none,
    template := { metadata := mdNil, spec := podSpecNil } }

/-- A baseline empty job status. -/
def jobStatusNil : JobStatus :=
  { active := 0, ready := 0, succeeded := none, failed := none,
    start_time := none, completed_indexes := "", conditions := [],
    uncounted_terminated_pods := UncountedTerminatedPods.mk [] [] }

/-- A job with `completions = 1` and no pods: its reconciliation needs only
a status update (no pod is created or deleted, `want_active = 0`). -/
def jobStatusUpdateOnly : Job :=
  { metadata := mdNil,
    spec := { jobSpecNil with completions := some 1 },
    status := jobStatusNil }

/-- A job with `active_deadline_seconds` set, not suspended, whose deadline
has not passed (`start_time` unset). -/
def jobDeadlinePending : Job :=
  { metadata := mdNil,
    spec := { jobSpecNil with active_deadline_seconds := some 1 },
    status := jobStatusNil }

/-- C4 (refuting the claim): `JobController::step` is NOT total.  On the
path where a matched job needs only a status/finalizer update the
reconciler reaches `track_job_status_and_remove_finalizers`, which is
`todo!()`, and on the path where `active_deadline_seconds` is set, the job
is not suspended and the deadline has not yet passed it reaches the
`todo!()` requeue arm: both panic instead of returning `Some`/`None`. -/
theorem C4_step_todo_panics :
    step 0 (StateView.mk 0 [0] [jobStatusUpdateOnly] []) 0 =
      Except.error "todo in track job status and remove finalizers" ∧
    reconcile jobDeadlinePending [] 0 =
      Except.error "todo requeue for active deadline" := by
  constructor
  · rfl
  · rfl

/-- The C6 job: deadline 5 seconds, started at logical time 0, not
suspended. -/
def jobDeadlineStarted : Job :=
  { metadata := mdNil,
    spec := { jobSpecNil with active_deadline_seconds := some 5 },
    status := { jobStatusNil with start_time := some 0 } }

/-- C6 (refuting the claim): at current time 10 the job started at time 0
with a 5-second deadline has been active for 10 ≥ 5 seconds, yet
`past_active_deadline` returns `false`: the source subtracts the current
time FROM the start time (saturating at zero), the reverse of the elapsed
time the claim and the spec describe. -/
theorem C6_past_active_deadline_reversed_subtraction :
    past_active_deadline jobDeadlineStarted 10 = false ∧
    jobDeadlineStarted.spec.active_deadline_seconds = some 5 ∧
    jobDeadlineStarted.status.start_time = some 0 ∧
    jobDeadlineStarted.spec.suspend = false ∧
    10 - (jobDeadlineStarted.status.start_time).getD 0 ≥
      (jobDeadlineStarted.spec.active_deadline_seconds).getD 0 := by
  refine ⟨rfl, rfl, rfl, rfl, by decide⟩

/-- C7 (refuting the claim): `merge` is not associative and does not cover
the union of its inputs.  With `A = [(0,1)]`, `B = [(2,3)]`,
`C = [(4,5)]`, merging `A` with `B` and then `C` gives `[(0,1),(4,5)]`
while merging `A` with `merge B C` gives `[(0,1)]`; and
`merge [(0,5)] [(3,10)]` returns `[(0,5)]`, dropping `6..=10` instead of
extending the last interval (the source's
`last_interval.unwrap().1 = i.1` writes through a copy). -/
theorem C7_merge_not_associative :
    merge (merge [(0, 1)] [(2, 3)]) [(4, 5)] ≠
      merge [(0, 1)] (merge [(2, 3)] [(4, 5)]) ∧
    merge (merge [(0, 1)] [(2, 3)]) [(4, 5)] = [(0, 1), (4, 5)] ∧
    merge [(0, 1)] (merge [(2, 3)] [(4, 5)]) = [(0, 1)] ∧
    merge [(0, 5)] [(3, 10)] = [(0, 5)] := by
  have h1 : merge [(0, 1)] [(2, 3)] = [(0, 1)] := by
    simp [merge, merge_go, append_or_merge_with_last_interval]
  have h2 : merge [(2, 3)] [(4, 5)] = [(2, 3)] := by
    simp [merge, merge_go, append_or_merge_with_last_interval]
  have h3 : merge [(0, 1)] [(4, 5)] = [(0, 1), (4, 5)] := by
    simp [merge, merge_go, append_or_merge_with_last_interval]
  have h4 : merge [(0, 1)] [(2, 3)] = [(0, 1)] := h1
  have h5 : merge [(0, 5)] [(3, 10)] = [(0, 5)] := by
    simp [merge, merge_go, append_or_merge_with_last_interval]
  refine ⟨?_, ?_, ?_, h5⟩
  · rw [h1, h2, h3, h4]; decide
  · rw [h1, h3]
  · rw [h2, h4]

end MCO.JobCtl

namespace MCO.JobCtl

/-- C5: when a job reconciles with no terminal failure condition (the
finished-condition chain, fed exactly the `exceeds_backoff_limit` value
`reconcile` computes, produced `none`) and no deletion timestamp, the
completion flag that `reconcile` turns into the `Complete(True)` condition
is true iff: without `spec.completions`, the derived `succeeded` is
positive and the derived `active` is zero; with `spec.completions = n`,
the derived `succeeded` is at least `n` and the derived `active` is
zero. -/
theorem C5_complete_condition_iff (job : Job) (pods : List Pod) (now : Nat)
    (pi si : List (Nat × Nat)) (s : Nat)
    (hfc : finished_condition_chain job pods now
      (decide (job.status.failed.getD 0 +
        non_ignored_failed_pods_count job
          (get_new_finished_pods job pods
            job.status.uncounted_terminated_pods []).2 +
        job.status.uncounted_terminated_pods.failed.length >
        job.spec.backoff_limit.getD 0)) = Except.ok none)
    (hdel : job.metadata.deletion_timestamp = none)
    (hs : succeeded_override job pods
      (job.status.succeeded.getD 0 +
        (get_new_finished_pods job pods
          job.status.uncounted_terminated_pods []).1.length +
        job.status.uncounted_terminated_pods.succeeded.length) =
      Except.ok (pi, si, s)) :
    jobCompleteFlag job s (filter_active_pods pods).length = true ↔
      ((job.spec.completions = none ∧ 0 < s ∧
        (filter_active_pods pods).length = 0) ∨
       (∃ n, job.spec.completions = some n ∧ n ≤ s ∧
        (filter_active_pods pods).length = 0)) := by
  unfold jobCompleteFlag
  cases hc : job.spec.completions with
  | none => simp [hc]
  | some n =>
    simp only [hc, Bool.and_eq_true, decide_eq_true_eq]
    constructor
    · rintro ⟨h1, h2⟩
      exact Or.inr ⟨n, rfl, h1, h2⟩
    · rintro (⟨hn, _, _⟩ | ⟨m, hm, h1, h2⟩)
      · cases hn
      · injection hm with hm
        subst hm
        exact ⟨h1, h2⟩

/-- Witness for C5: a job without `completions` whose status already counts
one success and with no pods — the guards hold concretely and the complete
flag is true, matching `succeeded > 0 ∧ active = 0`. -/
theorem C5_complete_condition_iff_witness :
    jobCompleteFlag
      (Job.mk mdNil jobSpecNil
        { jobStatusNil with succeeded := some 1 }) 1
      (filter_active_pods []).length = true ↔
      (((Job.mk mdNil jobSpecNil
          { jobStatusNil with succeeded := some 1 }).spec.completions =
            none ∧ 0 < 1 ∧ (filter_active_pods []).length = 0) ∨
       (∃ n, (Job.mk mdNil jobSpecNil
          { jobStatusNil with succeeded := some 1 }).spec.completions =
            some n ∧ n ≤ 1 ∧ (filter_active_pods []).length = 0)) := by
  exact C5_complete_condition_iff
    (Job.mk mdNil jobSpecNil { jobStatusNil with succeeded := some 1 })
    [] 0 [] [] 1 (by rfl) (by rfl) (by rfl)

end MCO.JobCtl
